import Mathlib

/-!
Shallow embedding of the consensus and scoring core of `src/validator/weights.py`
(class `WeightsCalculator`), together with the data model it depends on.

Numeric values (confidences, scores, weights) are modelled as real numbers; the
coordination detector genuinely takes a square root (`conf_variance ** 0.5`), so the
development is noncomputable from that point upward.  Python dictionaries are modelled
as association lists with insertion-order semantics (updates in place, new keys
appended), matching CPython's guaranteed dict ordering.  The process-global
`random.sample` is modelled by an explicit deterministic generator state threaded
through the pipeline.
-/

namespace Weights

open scoped Classical

noncomputable section

/-- Resolution verdict domain, from `shared.types` as used throughout
`src/validator/weights.py`: the three-valued verdict space. -/
inductive Resolution : Type
  | TRUE
  | FALSE
  | PENDING
deriving DecidableEq, Repr, Inhabited

/-- Statement under evaluation; opaque to the consensus core (it is threaded through
`calculate_scores` and `calculate_consensus` but never inspected). -/
structure Statement : Type where
  text : String
deriving Inhabited

/-- Modelled from the spec: `MinerResponse` lives in `shared.types`, which is not under
`src/`.  Per §3 of the spec it carries an optional integer miner UID, a resolution, a
confidence in [0,100], a summary text and a source list. -/
structure MinerResponse : Type where
  miner_uid : Option Nat
  resolution : Resolution
  confidence : ℝ
  summary : String
  sources : List String
deriving Inhabited

/-- Modelled from the spec: `MinerResponse.is_valid` (shared.types, not under `src/`).
Per §6, a response is valid iff its verdict is set, its confidence lies in [0,100] and
its miner UID is set.  The verdict field is total in this model, so the non-null-verdict
condition is vacuous here. -/
def MinerResponse.is_valid (r : MinerResponse) : Prop :=
  r.miner_uid.isSome ∧ 0 ≤ r.confidence ∧ r.confidence ≤ 100

/-- Bittensor metagraph as used by `weights.py`: an optional coldkey side-table
(`metagraph.coldkeys`, indexed by UID) and an optional stake side-table
(`metagraph.S`).  `none` models the attribute being absent (`hasattr` fails). -/
structure Metagraph : Type where
  coldkeys : Option (List String)
  S : Option (List ℝ)

/-- Modelled from the spec: `ValidationResult` (shared.types, not under `src/`), with
the fields listed in §3 and constructed at the end of `calculate_consensus`. -/
structure ValidationResult : Type where
  consensus_resolution : Resolution
  consensus_confidence : ℝ
  total_responses : Nat
  valid_responses : Nat
  miner_scores : List (Nat × ℝ)
  consensus_sources : List String

/-- Pseudo-random generator state.  The source draws from the process-global
`random` module; in this pure embedding the generator state is passed explicitly. -/
abbrev Rng := Nat

/-- Linear-congruential step, a deterministic stand-in for the stdlib Mersenne
Twister advancing its state. -/
def lcg (s : Nat) : Nat := (s * 1103515245 + 12345) % 2 ^ 31

/-- Draw up to `k` elements without replacement, deterministic in the generator
state: models `random.sample(population, k)`. -/
def sampleAux {α : Type} : Nat → List α → Rng → List α × Rng
  | 0, _, s => ([], s)
  | k + 1, xs, s =>
    if h : xs = [] then ([], s)
    else
      let i := s % xs.length
      let x := xs.get ⟨i, Nat.mod_lt _ (List.length_pos.mpr h)⟩
      let rest := sampleAux k (xs.eraseIdx i) (lcg s)
      (x :: rest.1, rest.2)

/-- Model of `random.sample(xs, k)` with explicit generator state. -/
def sample {α : Type} (xs : List α) (k : Nat) (s : Rng) : List α × Rng :=
  sampleAux k xs s

/-- Whitespace tokenizer over a character list: runs of whitespace separate words and
empty words are dropped, like Python's `str.split()` with no argument. -/
def wordsAux : List Char → List Char → List String
  | [], acc => if acc = [] then [] else [String.mk acc.reverse]
  | c :: rest, acc =>
    if c.isWhitespace then
      if acc = [] then wordsAux rest [] else String.mk acc.reverse :: wordsAux rest []
    else wordsAux rest (c :: acc)

/-- Python `text.split()`: split on whitespace runs, dropping empty tokens. -/
def splitWs (s : String) : List String := wordsAux s.data []

/-- Python `text.lower()`, modelled per character. -/
def strLower (s : String) : String := String.mk (s.data.map Char.toLower)

/-- Embeds `WeightsCalculator._jaccard_similarity` (weights.py lines 372-383):
word-set Jaccard similarity, with two empty token sets giving 1.0 and an empty
union giving 0.0. -/
def jaccardSimilarity (text1 text2 : String) : ℝ :=
  let words1 := (splitWs text1).toFinset
  let words2 := (splitWs text2).toFinset
  if words1 = ∅ ∧ words2 = ∅ then 1
  else
    let inter := (words1 ∩ words2).card
    let union := (words1 ∪ words2).card
    if 0 < union then (inter : ℝ) / (union : ℝ) else 0

/-- Similarities of all unordered pairs, in the nested-loop order of
`_calculate_text_similarity` (for i, for j in i+1..). -/
def pairwiseSimilarities : List String → List ℝ
  | [] => []
  | t :: rest => rest.map (fun u => jaccardSimilarity t u) ++ pairwiseSimilarities rest

/-- Embeds `WeightsCalculator._calculate_text_similarity` (weights.py lines 356-370):
0.0 for fewer than two texts, else the mean of all pairwise Jaccard similarities. -/
def calculateTextSimilarity (texts : List String) : ℝ :=
  if texts.length < 2 then 0
  else
    let sims := pairwiseSimilarities texts
    if sims = [] then 0 else sims.sum / (sims.length : ℝ)

/-- Arithmetic mean of a list of reals, as computed by `sum(...)/len(...)`. -/
def listMean (l : List ℝ) : ℝ := l.sum / (l.length : ℝ)

/-- Population variance of a list of reals, as computed in
`_detect_response_coordination` (weights.py lines 316-317). -/
def listVariance (l : List ℝ) : ℝ :=
  ((l.map (fun c => (c - listMean l) ^ 2)).sum) / (l.length : ℝ)

/-- Embeds `WeightsCalculator._detect_response_coordination` (weights.py lines
299-354).  The `coldkey` argument of the source is only used for logging and is
omitted.  `conf_std` is the real square root of the population variance. -/
def detectResponseCoordination (rs : List MinerResponse) : ℝ :=
  if rs.length < 2 then 0
  else
    let resolutionAgreement : ℝ :=
      ((rs.filter (fun r => r.resolution = rs.headI.resolution)).length : ℝ) /
        (rs.length : ℝ)
    let confStd : ℝ := Real.sqrt (listVariance (rs.map (fun r => r.confidence)))
    let summarySimilarity : ℝ :=
      calculateTextSimilarity (rs.map (fun r => strLower r.summary))
    let indicators : List ℝ :=
      (if 0.9 ≤ resolutionAgreement then [0.4 * resolutionAgreement] else []) ++
      (if confStd < 5 then [0.3 * (1 - confStd / 5)] else []) ++
      (if 0.7 < summarySimilarity then [0.3 * summarySimilarity] else [])
    min indicators.sum 1

/-- Confidence attenuation applied to each member of a coordinated coldkey group
(weights.py line 267): `conf := max(25, conf * (1 - penalty))`. -/
def attenuate (penalty : ℝ) (r : MinerResponse) : MinerResponse :=
  { r with confidence := max 25 (r.confidence * (1 - penalty)) }

/-- First-appearance deduplication, the key order of a Python dict filled by a
left-to-right loop. -/
def dedupFA {K : Type} [DecidableEq K] (l : List K) : List K :=
  l.foldl (fun acc x => if x ∈ acc then acc else acc ++ [x]) []

/-- Grouping by an optional key, preserving Python dict semantics: keys appear in
first-appearance order, each group lists its members in input order, and elements
with no key are dropped (handled separately by the callers). -/
def groupByFA {α K : Type} [DecidableEq K] (key : α → Option K) (l : List α) :
    List (K × List α) :=
  l.foldl (fun m x =>
    match key x with
    | none => m
    | some k =>
      if k ∈ m.map Prod.fst then
        m.map (fun p => if p.1 = k then (p.1, p.2 ++ [x]) else p)
      else m ++ [(k, [x])]) []

/-- Coldkey lookup used by `_apply_coldkey_consensus_cap` (weights.py lines 247-257):
a response resolves to `coldkeys[uid]` when its UID is set and in range, and bypasses
the cap otherwise. -/
def resolveColdkey (cks : List String) (r : MinerResponse) : Option String :=
  match r.miner_uid with
  | none => none
  | some uid => if h : uid < cks.length then some (cks.get ⟨uid, h⟩) else none

/-- Stable insertion placing `r` before the first element whose confidence is not
above `r`'s: together with `sortByConfidenceDesc` this is the unique stable
descending sort by confidence, matching Python's stable `list.sort(key=...,
reverse=True)`. -/
def insertDesc (r : MinerResponse) : List MinerResponse → List MinerResponse
  | [] => [r]
  | x :: xs => if x.confidence ≤ r.confidence then r :: x :: xs else x :: insertDesc r xs

/-- Stable sort by confidence, descending (weights.py line 274). -/
def sortByConfidenceDesc : List MinerResponse → List MinerResponse
  | [] => []
  | x :: xs => insertDesc x (sortByConfidenceDesc xs)

/-- Group attenuation step of the coldkey cap (weights.py lines 260-267): groups of
more than one member with a positive coordination penalty have every member's
confidence attenuated. -/
def attenuateGroup (g : List MinerResponse) : List MinerResponse :=
  if 1 < g.length ∧ 0 < detectResponseCoordination g then
    g.map (attenuate (detectResponseCoordination g))
  else g

/-- The in-place effect of the coldkey-cap step on one response object: responses in
a multi-member group with positive coordination penalty are attenuated, all others
are untouched (weights.py lines 260-267, expressed per object). -/
def capUpdateResponse (rs : List MinerResponse) (cks : List String)
    (r : MinerResponse) : MinerResponse :=
  match resolveColdkey cks r with
  | none => r
  | some c =>
    let g := rs.filter (fun x => resolveColdkey cks x = some c)
    if 1 < g.length ∧ 0 < detectResponseCoordination g then
      attenuate (detectResponseCoordination g) r
    else r

/-- Admission rule of the coldkey cap for one group (weights.py lines 269-276):
groups at or under the cap are admitted whole, larger groups contribute the top
`cap` members by (attenuated) confidence. -/
def capAdmit (cap : Nat) (g : List MinerResponse) : List MinerResponse :=
  if g.length ≤ cap then g else (sortByConfidenceDesc g).take cap

/-- The 7% cap (weights.py lines 240-241): `max(1, int(total_miners * 0.07))`. -/
def capValue (cks : List String) : Nat := max 1 (7 * cks.length / 100)

/-- Embeds `WeightsCalculator._apply_coldkey_consensus_cap` (weights.py lines
228-297).  Returns `(updated, capped)`: `updated` is the input list with the in-place
confidence attenuations applied (the source mutates the response objects), `capped`
the filtered list it returns.  When the coldkey side-table is absent and some
response has a UID, the source raises `AttributeError` at the `len(metagraph.coldkeys)`
check (line 248), before any mutation: modelled as `Except.error`.  `int(N * 0.07)`
equals `7 * N / 100` in natural division for every realistic `N` (the float error of
`0.07` never crosses an integer boundary), so the cap is `max 1 (7 * N / 100)`. -/
def applyColdkeyConsensusCap (responses : List MinerResponse) (m : Metagraph) :
    Except Unit (List MinerResponse × List MinerResponse) :=
  if responses = [] then .ok (responses, responses)
  else match m.coldkeys with
  | none =>
    if responses.any (fun r => r.miner_uid.isSome) then .error ()
    else .ok (responses, responses)
  | some cks =>
    .ok (responses.map (capUpdateResponse responses cks),
         responses.filter (fun r => resolveColdkey cks r = none) ++
           (groupByFA (resolveColdkey cks) responses).flatMap
             (fun p => capAdmit (capValue cks) (attenuateGroup p.2)))

/-- Coldkey lookup of the cross-coldkey filter (weights.py lines 150-155): an
out-of-range UID lands in the "unknown" group (`IndexError` caught). -/
def crossKey (cks : List String) (r : MinerResponse) : Option String :=
  match r.miner_uid with
  | none => some "unknown"
  | some uid =>
    if h : uid < cks.length then some (cks.get ⟨uid, h⟩) else some "unknown"

/-- Embeds `WeightsCalculator._detect_cross_coldkey_similarity` (weights.py lines
140-184).  A `None` UID raises an uncaught `TypeError` at
`metagraph.coldkeys[None]` (line 152), before any sampling: modelled as `error`.
Coldkeys with 15 or more responses keep a random subset of `max(2, int(n*0.20))`
(`= max 2 (n / 5)` exactly). -/
def detectCrossColdkeySimilarity (responses : List MinerResponse) (m : Metagraph)
    (rng : Rng) : Except Unit (List MinerResponse × Rng) :=
  match m.coldkeys with
  | none => .ok (responses, rng)
  | some cks =>
    if responses.any (fun r => r.miner_uid.isNone) then .error ()
    else
      .ok ((groupByFA (crossKey cks) responses).foldl (fun acc p =>
        if 15 ≤ p.2.length then
          let chosen := sample p.2 (max 2 (p.2.length / 5)) acc.2
          (acc.1 ++ chosen.1, chosen.2)
        else (acc.1 ++ p.2, acc.2)) ([], rng))

/-- Truncation toward zero, Python's `int(float)`. -/
def intTrunc (x : ℝ) : ℤ := if 0 ≤ x then ⌊x⌋ else ⌈x⌉

/-- Stake bucket of the fallback filter (weights.py lines 198-205): round the stake
to a whole number of TAO; unknown stakes land in bucket 0. -/
def stakeBucket (stakes : List ℝ) (r : MinerResponse) : Option ℤ :=
  match r.miner_uid with
  | none => some 0
  | some uid =>
    if h : uid < stakes.length then some (intTrunc (stakes.get ⟨uid, h⟩))
    else some 0

/-- Embeds `WeightsCalculator._apply_stake_based_protection` (weights.py lines
186-226).  Responses with an out-of-range UID land in bucket 0 (`IndexError`
caught); a `None` UID raises an uncaught `TypeError` at `metagraph.S[None]` (line
200): modelled as `error`.  Buckets with value in [15,100] and 15 or more members
keep a random subset of `max(1, int(n*0.15))` (`= max 1 (3 * n / 20)` exactly). -/
def applyStakeBasedProtection (responses : List MinerResponse) (m : Metagraph)
    (rng : Rng) : Except Unit (List MinerResponse × Rng) :=
  match m.S with
  | none => .ok (responses, rng)
  | some stakes =>
    if responses.any (fun r => r.miner_uid.isNone) then .error ()
    else
      .ok ((groupByFA (stakeBucket stakes) responses).foldl (fun acc p =>
        if 15 ≤ p.1 ∧ p.1 ≤ 100 ∧ 15 ≤ p.2.length then
          let chosen := sample p.2 (max 1 (3 * p.2.length / 20)) acc.2
          (acc.1 ++ chosen.1, chosen.2)
        else (acc.1 ++ p.2, acc.2)) ([], rng))

/-- Vote accumulation step of `_calculate_weighted_consensus`: a `defaultdict(float)`
updated by `vote_weights[resolution] += weight`, with dict insertion-order
semantics. -/
def addVote (m : List (Resolution × ℝ)) (v : Resolution) (w : ℝ) :
    List (Resolution × ℝ) :=
  if v ∈ m.map Prod.fst then m.map (fun p => if p.1 = v then (p.1, p.2 + w) else p)
  else m ++ [(v, w)]

/-- Accumulated vote weights, in verdict first-appearance order. -/
def voteWeights (rs : List MinerResponse) : List (Resolution × ℝ) :=
  rs.foldl (fun m r => addVote m r.resolution (r.confidence / 100)) []

/-- Python `max(items, key=lambda x: x[1])` guarded by emptiness: returns the first
item attaining the maximal second component (later items replace the current best
only when strictly greater). -/
def pythonMaxBySnd {K : Type} (l : List (K × ℝ)) : Option (K × ℝ) :=
  l.foldl (fun best x =>
    match best with
    | none => some x
    | some b => if b.2 < x.2 then some x else some b) none

/-- Embeds `WeightsCalculator._calculate_weighted_consensus` (weights.py lines
124-138): confidence-weighted vote; `None` on an empty input. -/
def calculateWeightedConsensus (rs : List MinerResponse) : Option Resolution :=
  (pythonMaxBySnd (voteWeights rs)).map Prod.fst

/-- Result of one `_calculate_consensus` run: the response list with in-place
mutations applied, the survivor list fed to the weighted vote, the consensus, and
the generator state. -/
structure InnerResult : Type where
  updated : List MinerResponse
  survivors : List MinerResponse
  consensus : Option Resolution
  rng : Rng

/-- Embeds `WeightsCalculator._calculate_consensus` (weights.py lines 89-122) with
its exception-driven tier demotion: coldkey cap → cross-coldkey filter → weighted
vote; on a coldkey-tier exception, stake protection on the responses as left by the
failure point; on a further exception, basic consensus.  Note that a failure inside
the cross-coldkey filter leaves `responses` rebound to the capped list (line 105),
so the stake fallback then operates on the capped list. -/
def calculateConsensusAux (responses : List MinerResponse) (mg : Option Metagraph)
    (rng : Rng) : InnerResult :=
  if responses = [] then ⟨responses, responses, none, rng⟩
  else match mg with
  | none => ⟨responses, responses, calculateWeightedConsensus responses, rng⟩
  | some m =>
    match applyColdkeyConsensusCap responses m with
    | .ok (updated, capped) =>
      match detectCrossColdkeySimilarity capped m rng with
      | .ok (filtered, rng2) =>
        ⟨updated, filtered, calculateWeightedConsensus filtered, rng2⟩
      | .error _ =>
        match applyStakeBasedProtection capped m rng with
        | .ok (st, rng2) => ⟨updated, st, calculateWeightedConsensus st, rng2⟩
        | .error _ => ⟨updated, capped, calculateWeightedConsensus capped, rng⟩
    | .error _ =>
      match applyStakeBasedProtection responses m rng with
      | .ok (st, rng2) => ⟨responses, st, calculateWeightedConsensus st, rng2⟩
      | .error _ => ⟨responses, responses, calculateWeightedConsensus responses, rng⟩

/-- Scoring weights of the `WeightsCalculator` constructor (weights.py lines 20-43). -/
structure WeightsConfig : Type where
  accuracy_weight : ℝ
  confidence_weight : ℝ
  consistency_weight : ℝ
  source_quality_weight : ℝ

/-- Constructor-time renormalization of the four weights (weights.py lines 36-43). -/
def normalizeConfig (c : WeightsConfig) : WeightsConfig :=
  let t := c.accuracy_weight + c.confidence_weight + c.consistency_weight +
    c.source_quality_weight
  if 0 < t then
    ⟨c.accuracy_weight / t, c.confidence_weight / t, c.consistency_weight / t,
      c.source_quality_weight / t⟩
  else c

/-- Default configuration (weights.py lines 31-34). -/
def defaultConfig : WeightsConfig := normalizeConfig ⟨0.4, 0.2, 0.3, 0.1⟩

/-- Embeds `WeightsCalculator._calculate_accuracy_score` (weights.py lines 423-437). -/
def calculateAccuracyScore (r : MinerResponse) (consensus : Option Resolution) : ℝ :=
  match consensus with
  | none => 0.5
  | some c =>
    if r.resolution = c then 1
    else if r.resolution = Resolution.PENDING then 0.5
    else 0

/-- Embeds `WeightsCalculator._calculate_confidence_score` (weights.py lines
439-464).  `response.resolution == consensus` with an `Optional` consensus is
`some r.resolution = consensus`. -/
def calculateConfidenceScore (r : MinerResponse) (consensus : Option Resolution) : ℝ :=
  let c := r.confidence / 100
  if some r.resolution = consensus then c
  else if r.resolution = Resolution.PENDING then 1 - |c - 0.5|
  else 1 - c

/-- Embeds `WeightsCalculator._calculate_consistency_score` (weights.py lines
466-492).  `r != response` is modelled as structural inequality of the records. -/
def calculateConsistencyScore (r : MinerResponse) (all : List MinerResponse) : ℝ :=
  if all.length < 2 then 1
  else
    let high := all.filter (fun x => 80 < x.confidence ∧ ¬ x = r)
    if high = [] then 1
    else ((high.filter (fun x => x.resolution = r.resolution)).length : ℝ) /
      (high.length : ℝ)

/-- Reliable source substrings (weights.py lines 507-510). -/
def reliableSources : List String :=
  ["coingecko", "coinmarketcap", "yahoo", "bloomberg", "reuters", "binance",
   "coinbase", "kraken"]

/-- Substring containment, Python's `needle in haystack` on strings. -/
def isSubstringOf (needle hay : String) : Prop := needle.data <:+: hay.data

/-- Embeds `WeightsCalculator._calculate_source_score` (weights.py lines 494-524). -/
def calculateSourceScore (r : MinerResponse) : ℝ :=
  if r.sources = [] then 0
  else
    let sourceCountScore := min ((r.sources.length : ℝ) / 3) 1
    let reliableCount :=
      (r.sources.filter (fun s =>
        reliableSources.any (fun q => isSubstringOf q (strLower s)))).length
    let reliabilityScore := min ((reliableCount : ℝ) / 2) 1
    (sourceCountScore + reliabilityScore) / 2

/-- Embeds `WeightsCalculator._score_response` (weights.py lines 385-421): convex
combination of the four sub-scores, clamped to [0,1]. -/
def scoreResponse (cfg : WeightsConfig) (r : MinerResponse)
    (consensus : Option Resolution) (all : List MinerResponse) : ℝ :=
  let total :=
    calculateAccuracyScore r consensus * cfg.accuracy_weight +
    calculateConfidenceScore r consensus * cfg.confidence_weight +
    calculateConsistencyScore r all * cfg.consistency_weight +
    calculateSourceScore r * cfg.source_quality_weight
  min (max total 0) 1

/-- Python dict assignment `scores[uid] = score`: updates in place, appends new keys. -/
def dictInsert (m : List (Nat × ℝ)) (k : Nat) (v : ℝ) : List (Nat × ℝ) :=
  if k ∈ m.map Prod.fst then m.map (fun p => if p.1 = k then (p.1, v) else p)
  else m ++ [(k, v)]

/-- Embeds `WeightsCalculator._normalize_scores` (weights.py lines 526-540). -/
def normalizeScores (scores : List (Nat × ℝ)) : List (Nat × ℝ) :=
  if scores = [] then []
  else
    let total := (scores.map (fun p => p.2)).sum
    if total = 0 then scores.map (fun p => (p.1, 1 / (scores.length : ℝ)))
    else scores.map (fun p => (p.1, p.2 / total))

/-- Result of `calculate_scores`: the normalized score map, the response list with
the mutations of its internal consensus run applied, and the generator state. -/
structure ScoresOutput : Type where
  scores : List (Nat × ℝ)
  updated : List MinerResponse
  rng : Rng

/-- Embeds `WeightsCalculator.calculate_scores` (weights.py lines 48-87).  With no
ground truth it runs `_calculate_consensus` itself (line 71), which mutates the
responses in place before they are scored; the scoring loop then reads the mutated
confidences. -/
def calculateScores (cfg : WeightsConfig) (statement : Statement)
    (responses : List MinerResponse) (ground_truth : Option Resolution)
    (mg : Option Metagraph) (rng : Rng) : ScoresOutput :=
  if responses = [] then ⟨[], responses, rng⟩
  else
    let inner : List MinerResponse × Option Resolution × Rng :=
      match ground_truth with
      | some gt => (responses, some gt, rng)
      | none =>
        let res := calculateConsensusAux responses mg rng
        (res.updated, res.consensus, res.rng)
    let raw := inner.1.foldl (fun m r =>
      match r.miner_uid with
      | some uid => dictInsert m uid (scoreResponse cfg r inner.2.1 inner.1)
      | none => m) []
    ⟨normalizeScores raw, inner.1, inner.2.2⟩

/-- Merge the (possibly mutated) valid responses back into the full input list by
position: the source mutates the shared objects, so mutations made to the valid
sublist are visible through the original list. -/
def mergeValid : List MinerResponse → List MinerResponse → List MinerResponse
  | [], _ => []
  | r :: rest, upd =>
    if r.is_valid then
      match upd with
      | [] => r :: mergeValid rest []
      | u :: us => u :: mergeValid rest us
    else r :: mergeValid rest upd

/-- Rolling-window append of `calculate_consensus` (weights.py lines 592-596):
append the score to the miner's window, keeping only the last 100 entries. -/
def accumAppend (a : List (Nat × List ℝ)) (uid : Nat) (v : ℝ) :
    List (Nat × List ℝ) :=
  let truncate : List ℝ → List ℝ := fun w =>
    if 100 < w.length then w.drop (w.length - 100) else w
  if uid ∈ a.map Prod.fst then
    a.map (fun p => if p.1 = uid then (p.1, truncate (p.2 ++ [v])) else p)
  else a ++ [(uid, truncate [v])]

/-- Result of one `calculate_consensus` call: the `ValidationResult`, the input
responses with all in-place mutations applied, the generator state, and the
accumulated score windows. -/
structure AggregateOutput : Type where
  result : ValidationResult
  responses : List MinerResponse
  rng : Rng
  accumulated : List (Nat × List ℝ)

/-- Embeds the public `WeightsCalculator.calculate_consensus` (weights.py lines
542-605).  The set of sources is modelled as a first-appearance deduplicated list
(the source iterates a Python `set`, whose order is fixed within a process). -/
def calculateConsensus (cfg : WeightsConfig) (statement : Statement)
    (responses : List MinerResponse) (mg : Option Metagraph) (rng : Rng)
    (acc : List (Nat × List ℝ)) : AggregateOutput :=
  if responses = [] then
    ⟨⟨Resolution.PENDING, 0, 0, 0, [], []⟩, responses, rng, acc⟩
  else
    let valid := responses.filter (fun r => r.is_valid)
    let inner := calculateConsensusAux valid mg rng
    let consensusResponses :=
      inner.updated.filter (fun r => some r.resolution = inner.consensus)
    let avgConfidence : ℝ :=
      if consensusResponses = [] then 0
      else (consensusResponses.map (fun r => r.confidence)).sum /
        (consensusResponses.length : ℝ)
    let so := calculateScores cfg statement inner.updated none mg inner.rng
    let allSources := dedupFA (so.updated.flatMap (fun r => r.sources))
    let acc2 := so.scores.foldl (fun a p => accumAppend a p.1 p.2) acc
    ⟨⟨inner.consensus.getD Resolution.PENDING, avgConfidence, responses.length,
      valid.length, so.scores, allSources.take 10⟩,
     mergeValid responses so.updated, so.rng, acc2⟩

/-! Claim-side comparator definitions.  These follow the wording of the spec and of
the claims being checked, to be compared with the definitions translated from the
source above. -/

/-- Spec §4.6 vote weight: `W[v] = Σ (conf_i / 100)` over responses with verdict `v`. -/
def verdictWeight (v : Resolution) (rs : List MinerResponse) : ℝ :=
  ((rs.filter (fun r => r.resolution = v)).map (fun r => r.confidence / 100)).sum

/-- Verdict domain in the fixed iteration order stated by spec §4.6:
`TRUE < FALSE < PENDING`. -/
def verdictDomainOrdered : List Resolution :=
  [Resolution.TRUE, Resolution.FALSE, Resolution.PENDING]

/-- Modelled from the spec (§4.6 tie-break sentence): the weighted consensus with the
map keys sorted in the fixed verdict order `TRUE < FALSE < PENDING` before the
argmax, as the claim asserts the implementation behaves. -/
def claimOrderedConsensus (rs : List MinerResponse) : Option Resolution :=
  if rs = [] then none
  else
    (pythonMaxBySnd ((verdictDomainOrdered.filter
      (fun v => rs.any (fun r => r.resolution = v))).map
        (fun v => (v, verdictWeight v rs)))).map Prod.fst

/-- Modelled from the spec (§4.1): `pairwise_mean_similarity(texts)` as the claim
states it, returning 0.0 when fewer than two NON-EMPTY texts are supplied and the
mean over all unordered pairs of the supplied texts otherwise. -/
def specPairwiseMeanSimilarity (texts : List String) : ℝ :=
  if (texts.filter (fun t => ¬ t = "")).length < 2 then 0
  else
    let sims := pairwiseSimilarities texts
    if sims = [] then 0 else sims.sum / (sims.length : ℝ)

/-- Normalized §4.7 score map of a response list against a given consensus verdict:
what claim C3 asserts the returned miner score map to be when instantiated with the
returned consensus. -/
def scoreMapAgainst (cfg : WeightsConfig) (consensus : Option Resolution)
    (rs : List MinerResponse) : List (Nat × ℝ) :=
  normalizeScores (rs.foldl (fun m r =>
    match r.miner_uid with
    | some uid => dictInsert m uid (scoreResponse cfg r consensus rs)
    | none => m) [])

/-- Membership of a response (value) in a multi-member coldkey group of a
`calculate_consensus` run: the response is valid, the coldkey side-table is present,
its coldkey resolves, and more than one valid response shares that coldkey. -/
def inMultiMemberColdkeyGroup (responses : List MinerResponse)
    (mg : Option Metagraph) (r : MinerResponse) : Prop :=
  r.is_valid ∧ ∃ m cks c, mg = some m ∧ m.coldkeys = some cks ∧
    resolveColdkey cks r = some c ∧
    1 < ((responses.filter (fun x => x.is_valid)).filter
      (fun x => resolveColdkey cks x = some c)).length

/-! Concrete inputs used by the counterexamples and witnesses. -/

/-- Two-response coldkey group with identical members of confidence 10 (for C2). -/
def c2resp : MinerResponse :=
  ⟨some 0, Resolution.TRUE, 10, "same words", []⟩

/-- Metagraph with a single coldkey owning UID 0 (for C2). -/
def c2mg : Metagraph := ⟨some ["CK"], none⟩

/-- Response list for the C2 counterexample: a duplicated low-confidence response. -/
def c2rs : List MinerResponse := [c2resp, c2resp]

/-- The C2 response after attenuation with penalty 1: its confidence is lifted from
10 to the floor 25. -/
def c2respA : MinerResponse :=
  ⟨some 0, Resolution.TRUE, 25, "same words", []⟩

/-- First coldkey-A response for the C3 counterexample. -/
def c3r0 : MinerResponse := ⟨some 0, Resolution.TRUE, 90, "pw qw", []⟩

/-- Second coldkey-A response for the C3 counterexample. -/
def c3r1 : MinerResponse := ⟨some 1, Resolution.TRUE, 92, "rw sw", []⟩

/-- Coldkey-B response for the C3 counterexample. -/
def c3r2 : MinerResponse := ⟨some 2, Resolution.FALSE, 60, "tw", []⟩

/-- Response list for the C3 counterexample. -/
def c3rs : List MinerResponse := [c3r0, c3r1, c3r2]

/-- Coldkey side-table for the C3 counterexample: 30 entries, so the 7% cap is 2. -/
def c3cks : List String := "A" :: "A" :: "B" :: List.replicate 27 "Z"

/-- Metagraph for the C3 counterexample. -/
def c3mg : Metagraph := ⟨some c3cks, none⟩

/-- Coldkey-A responses after the first attenuation round (penalty 0.64). -/
def c3r0a : MinerResponse := ⟨some 0, Resolution.TRUE, 32.4, "pw qw", []⟩

/-- Second coldkey-A response after the first attenuation round. -/
def c3r1a : MinerResponse := ⟨some 1, Resolution.TRUE, 33.12, "rw sw", []⟩

/-- Coldkey-A responses after the second attenuation round (penalty 0.6784, floored
at 25). -/
def c3r0b : MinerResponse := ⟨some 0, Resolution.TRUE, 25, "pw qw", []⟩

/-- Second coldkey-A response after the second attenuation round. -/
def c3r1b : MinerResponse := ⟨some 1, Resolution.TRUE, 25, "rw sw", []⟩

/-- First response of the C4 counterexample (survives the cap). -/
def c4r0 : MinerResponse := ⟨some 0, Resolution.TRUE, 90, "aw bw", []⟩

/-- Second response of the C4 counterexample (capped away, verdict TRUE). -/
def c4r1 : MinerResponse := ⟨some 1, Resolution.TRUE, 80, "cw dw", []⟩

/-- Third response of the C4 counterexample (capped away, verdict FALSE, keeping the
coldkey group heterogeneous so the coordination penalty is 0). -/
def c4r2 : MinerResponse := ⟨some 2, Resolution.FALSE, 10, "ew fw", []⟩

/-- Response list for the C4 counterexample. -/
def c4rs : List MinerResponse := [c4r0, c4r1, c4r2]

/-- Coldkey side-table for the C4 counterexample: 14 entries, so the 7% cap is 1,
and UIDs 0, 1, 2 share coldkey "A". -/
def c4cks : List String := "A" :: "A" :: "A" :: List.replicate 11 "Z"

/-- Metagraph for the C4 counterexample. -/
def c4mg : Metagraph := ⟨some c4cks, none⟩

/-- FALSE vote appearing first in the survivor list (for C5). -/
def c5rF : MinerResponse := ⟨some 0, Resolution.FALSE, 50, "x", []⟩

/-- TRUE vote appearing second, with equal weight (for C5). -/
def c5rT : MinerResponse := ⟨some 1, Resolution.TRUE, 50, "y", []⟩

/-- Tied survivor list for the C5 counterexample. -/
def c5rs : List MinerResponse := [c5rF, c5rT]

/-! Generic lemmas about the dict-order combinators. -/

theorem dedupFA_concat {K : Type} [DecidableEq K] (l : List K) (x : K) :
    dedupFA (l ++ [x]) =
      if x ∈ dedupFA l then dedupFA l else dedupFA l ++ [x] := by
  unfold dedupFA
  rw [List.foldl_append, List.foldl_cons, List.foldl_nil]

theorem mem_dedupFA {K : Type} [DecidableEq K] {y : K} {l : List K} :
    y ∈ dedupFA l ↔ y ∈ l := by
  induction l using List.reverseRecOn with
  | nil => simp [dedupFA]
  | append_singleton l x ih =>
    rw [dedupFA_concat]
    by_cases h : x ∈ dedupFA l
    · simp only [if_pos h, List.mem_append, List.mem_singleton, ih]
      constructor
      · exact fun hy => Or.inl hy
      · rintro (hy | rfl)
        · exact hy
        · exact ih.mp h
    · simp [if_neg h, List.mem_append, ih]

theorem dedupFA_nodup {K : Type} [DecidableEq K] (l : List K) :
    (dedupFA l).Nodup := by
  induction l using List.reverseRecOn with
  | nil => simp [dedupFA]
  | append_singleton l x ih =>
    rw [dedupFA_concat]
    by_cases h : x ∈ dedupFA l
    · simpa [if_pos h] using ih
    · rw [if_neg h]
      exact List.Nodup.append ih (List.nodup_singleton x)
        (by simpa [List.disjoint_singleton] using h)

theorem dedupFA_eq_nil {K : Type} [DecidableEq K] {l : List K} :
    dedupFA l = [] ↔ l = [] := by
  constructor
  · intro h
    cases l with
    | nil => rfl
    | cons a rest =>
      exfalso
      have : a ∈ dedupFA (a :: rest) := mem_dedupFA.mpr (List.mem_cons_self a rest)
      rw [h] at this
      exact List.not_mem_nil a this
  · rintro rfl
    rfl

theorem groupByFA_concat_none {α K : Type} [DecidableEq K] {key : α → Option K}
    {l : List α} {x : α} (h : key x = none) :
    groupByFA key (l ++ [x]) = groupByFA key l := by
  unfold groupByFA
  rw [List.foldl_append, List.foldl_cons, List.foldl_nil, h]

theorem groupByFA_concat_some {α K : Type} [DecidableEq K] {key : α → Option K}
    {l : List α} {x : α} {k : K} (h : key x = some k) :
    groupByFA key (l ++ [x]) =
      if k ∈ (groupByFA key l).map Prod.fst then
        (groupByFA key l).map (fun p => if p.1 = k then (p.1, p.2 ++ [x]) else p)
      else groupByFA key l ++ [(k, [x])] := by
  unfold groupByFA
  rw [List.foldl_append, List.foldl_cons, List.foldl_nil, h]

theorem filter_key_concat_none {α K : Type} [DecidableEq K] {key : α → Option K}
    {x : α} (l : List α) (u : K) (hkey : key x = none) :
    (l ++ [x]).filter (fun y => key y = some u) =
      l.filter (fun y => key y = some u) := by
  rw [List.filter_append, List.filter_cons]
  simp [hkey]

theorem filter_key_concat_eq {α K : Type} [DecidableEq K] {key : α → Option K}
    {x : α} (l : List α) {k : K} (hkey : key x = some k) :
    (l ++ [x]).filter (fun y => key y = some k) =
      l.filter (fun y => key y = some k) ++ [x] := by
  rw [List.filter_append, List.filter_cons]
  simp [hkey]

theorem filter_key_concat_ne {α K : Type} [DecidableEq K] {key : α → Option K}
    {x : α} (l : List α) {k u : K} (hkey : key x = some k) (hne : ¬ u = k) :
    (l ++ [x]).filter (fun y => key y = some u) =
      l.filter (fun y => key y = some u) := by
  rw [List.filter_append, List.filter_cons]
  have : ¬ key x = some u := by
    rw [hkey]
    exact fun h => hne (Option.some.inj h).symm
  simp [this]

theorem groupByFA_eq {α K : Type} [DecidableEq K] (key : α → Option K) (l : List α) :
    groupByFA key l =
      (dedupFA (l.filterMap key)).map
        (fun k => (k, l.filter (fun x => key x = some k))) := by
  induction l using List.reverseRecOn with
  | nil => simp [groupByFA, dedupFA]
  | append_singleton l x ih =>
    cases hkey : key x with
    | none =>
      rw [groupByFA_concat_none hkey, ih]
      have hfm : (l ++ [x]).filterMap key = l.filterMap key := by
        simp [List.filterMap_append, hkey]
      rw [hfm]
      refine (List.map_congr_left ?_).symm
      intro k _
      rw [filter_key_concat_none l k hkey]
    | some k =>
      rw [groupByFA_concat_some hkey, ih]
      have hkeys : ((dedupFA (l.filterMap key)).map
          (fun k => (k, l.filter (fun x => key x = some k)))).map Prod.fst =
          dedupFA (l.filterMap key) := by
        rw [List.map_map]
        exact (List.map_congr_left fun a _ => rfl).trans (List.map_id _)
      have hfm : (l ++ [x]).filterMap key = l.filterMap key ++ [k] := by
        simp [List.filterMap_append, hkey]
      rw [hkeys, hfm, dedupFA_concat]
      by_cases hmem : k ∈ dedupFA (l.filterMap key)
      · rw [if_pos hmem, if_pos hmem, List.map_map]
        refine List.map_congr_left ?_
        intro u _
        by_cases hu : u = k
        · subst hu
          simp [Function.comp, filter_key_concat_eq l hkey]
        · simp [Function.comp, if_neg hu, filter_key_concat_ne l hkey hu]
      · rw [if_neg hmem, if_neg hmem, List.map_append]
        congr 1
        · refine List.map_congr_left ?_
          intro u hu
          have hune : ¬ u = k := fun h => hmem (h ▸ hu)
          rw [filter_key_concat_ne l hkey hune]
        · have hnil : l.filter (fun y => key y = some k) = [] := by
            rw [List.filter_eq_nil_iff]
            intro a ha hka
            exact hmem (mem_dedupFA.mpr
              (List.mem_filterMap.mpr ⟨a, ha, of_decide_eq_true hka⟩))
          rw [List.map_singleton, filter_key_concat_eq l hkey, hnil]
          rfl

/-! Characterization of the vote accumulation and of the Python argmax. -/

theorem verdictWeight_concat (v : Resolution) (rs : List MinerResponse)
    (r : MinerResponse) :
    verdictWeight v (rs ++ [r]) =
      verdictWeight v rs + (if r.resolution = v then r.confidence / 100 else 0) := by
  unfold verdictWeight
  rw [List.filter_append, List.filter_cons, List.filter_nil]
  by_cases h : r.resolution = v
  · simp [h]
  · simp [h]

theorem verdictWeight_of_not_mem {v : Resolution} {rs : List MinerResponse}
    (h : v ∉ rs.map (fun r => r.resolution)) : verdictWeight v rs = 0 := by
  unfold verdictWeight
  have : rs.filter (fun r => r.resolution = v) = [] := by
    rw [List.filter_eq_nil_iff]
    intro a ha hav
    exact h (List.mem_map.mpr ⟨a, ha, of_decide_eq_true hav⟩)
  rw [this]
  rfl

theorem voteWeights_concat (rs : List MinerResponse) (r : MinerResponse) :
    voteWeights (rs ++ [r]) =
      addVote (voteWeights rs) r.resolution (r.confidence / 100) := by
  unfold voteWeights
  rw [List.foldl_append, List.foldl_cons, List.foldl_nil]

theorem voteWeights_eq (rs : List MinerResponse) :
    voteWeights rs = (dedupFA (rs.map (fun r => r.resolution))).map
      (fun v => (v, verdictWeight v rs)) := by
  induction rs using List.reverseRecOn with
  | nil => simp [voteWeights, dedupFA]
  | append_singleton rs r ih =>
    rw [voteWeights_concat, ih]
    have hmapres : (rs ++ [r]).map (fun x => x.resolution) =
        rs.map (fun x => x.resolution) ++ [r.resolution] := by simp
    rw [hmapres, dedupFA_concat]
    unfold addVote
    have hkeys : ((dedupFA (rs.map fun x => x.resolution)).map
        (fun v => (v, verdictWeight v rs))).map Prod.fst =
        dedupFA (rs.map fun x => x.resolution) := by
      rw [List.map_map]
      exact (List.map_congr_left fun a _ => rfl).trans (List.map_id _)
    rw [hkeys]
    by_cases hmem : r.resolution ∈ dedupFA (rs.map fun x => x.resolution)
    · rw [if_pos hmem, if_pos hmem, List.map_map]
      refine List.map_congr_left ?_
      intro u _
      by_cases huv : u = r.resolution
      · simp [Function.comp, huv, verdictWeight_concat]
      · have : ¬ r.resolution = u := fun h => huv h.symm
        simp [Function.comp, if_neg huv, verdictWeight_concat, this]
    · rw [if_neg hmem, if_neg hmem, List.map_append]
      congr 1
      · refine List.map_congr_left ?_
        intro u hu
        have huv : ¬ u = r.resolution := fun h => hmem (h ▸ hu)
        have : ¬ r.resolution = u := fun h => huv h.symm
        simp [verdictWeight_concat, this]
      · have h0 : verdictWeight r.resolution rs = 0 :=
          verdictWeight_of_not_mem (fun h => hmem (mem_dedupFA.mpr h))
        simp [verdictWeight_concat, h0]

theorem pythonMaxBySnd_concat {K : Type} (l : List (K × ℝ)) (x : K × ℝ) :
    pythonMaxBySnd (l ++ [x]) =
      match pythonMaxBySnd l with
      | none => some x
      | some b => if b.2 < x.2 then some x else some b := by
  unfold pythonMaxBySnd
  rw [List.foldl_append, List.foldl_cons, List.foldl_nil]

theorem pythonMaxBySnd_eq_none {K : Type} {l : List (K × ℝ)} :
    pythonMaxBySnd l = none ↔ l = [] := by
  induction l using List.reverseRecOn with
  | nil => simp [pythonMaxBySnd]
  | append_singleton l x ih =>
    rw [pythonMaxBySnd_concat]
    cases hl : pythonMaxBySnd l with
    | none => simp
    | some b =>
      constructor
      · intro h
        by_cases hb : b.2 < x.2 <;> simp [hb] at h
      · intro h
        exact absurd h (by simp)

theorem pythonMaxBySnd_spec {K : Type} (l : List (K × ℝ)) :
    ∀ b, pythonMaxBySnd l = some b →
    ∃ i, ∃ hi : i < l.length, l.get ⟨i, hi⟩ = b ∧
      (∀ j (hj : j < l.length), (l.get ⟨j, hj⟩).2 ≤ b.2) ∧
      (∀ j (hj : j < l.length), j < i → (l.get ⟨j, hj⟩).2 < b.2) := by
  induction l using List.reverseRecOn with
  | nil => exact fun b h => absurd h (by simp [pythonMaxBySnd])
  | append_singleton l x ih =>
    intro b h
    rw [pythonMaxBySnd_concat] at h
    cases hl : pythonMaxBySnd l with
    | none =>
      have hnil : l = [] := pythonMaxBySnd_eq_none.mp hl
      subst hnil
      rw [hl] at h
      simp only at h
      have hxb : x = b := Option.some.inj h
      refine ⟨0, by simp, ?_, ?_, ?_⟩
      · simpa using hxb
      · intro j hj
        have hj0 : j = 0 := by
          simp only [List.nil_append, List.length_singleton] at hj
          omega
        subst hj0
        simp [← hxb]
      · intro j hj hji
        omega
    | some c =>
      rw [hl] at h
      simp only at h
      obtain ⟨i, hi, hget, hle, hlt⟩ := ih c hl
      by_cases hcx : c.2 < x.2
      · rw [if_pos hcx] at h
        have hb : b = x := (Option.some.inj h).symm
        subst hb
        refine ⟨l.length, by simp, ?_, ?_, ?_⟩
        · rw [List.get_eq_getElem]
          simp
        · intro j hj
          rw [List.get_eq_getElem]
          rcases Nat.lt_or_ge j l.length with hjl | hjl
          · rw [List.getElem_append_left hjl]
            calc (l.get ⟨j, hjl⟩).2 ≤ c.2 := hle j hjl
              _ ≤ b.2 := le_of_lt hcx
          · have hj' : j = l.length := by
              simp only [List.length_append, List.length_singleton] at hj
              omega
            subst hj'
            simp
        · intro j hj hji
          rw [List.get_eq_getElem]
          have hjl : j < l.length := by
            simp only [List.length_append, List.length_singleton] at hj
            omega
          rw [List.getElem_append_left hjl]
          calc (l.get ⟨j, hjl⟩).2 ≤ c.2 := hle j hjl
            _ < b.2 := hcx
      · rw [if_neg hcx] at h
        have hb : b = c := (Option.some.inj h).symm
        subst hb
        refine ⟨i, by simp only [List.length_append, List.length_singleton]; omega,
          ?_, ?_, ?_⟩
        · rw [List.get_eq_getElem, List.getElem_append_left hi]
          rw [List.get_eq_getElem] at hget
          exact hget
        · intro j hj
          rw [List.get_eq_getElem]
          rcases Nat.lt_or_ge j l.length with hjl | hjl
          · rw [List.getElem_append_left hjl]
            have := hle j hjl
            rwa [List.get_eq_getElem] at this
          · have hj' : j = l.length := by
              simp only [List.length_append, List.length_singleton] at hj
              omega
            subst hj'
            simpa using le_of_not_lt hcx
        · intro j hj hji
          rw [List.get_eq_getElem]
          have hjl : j < l.length := lt_of_lt_of_le hji (le_of_lt hi)
          rw [List.getElem_append_left hjl]
          have := hlt j hjl hji
          rwa [List.get_eq_getElem] at this

/-! Lemmas about the similarity primitives and the coordination detector. -/

theorem jaccardSimilarity_self (t : String) : jaccardSimilarity t t = 1 := by
  simp only [jaccardSimilarity]
  by_cases h : (splitWs t).toFinset = (∅ : Finset String)
  · rw [if_pos ⟨h, h⟩]
  · rw [if_neg (by tauto)]
    simp only [Finset.inter_self, Finset.union_self]
    rw [if_pos (Finset.card_pos.mpr (Finset.nonempty_iff_ne_empty.mpr h))]
    exact div_self (Nat.cast_ne_zero.mpr
      (Finset.card_ne_zero.mpr (Finset.nonempty_iff_ne_empty.mpr h)))

theorem pairwiseSimilarities_length (l : List String) :
    (pairwiseSimilarities l).length = l.length.choose 2 := by
  induction l with
  | nil => simp [pairwiseSimilarities]
  | cons t rest ih =>
    simp only [pairwiseSimilarities, List.length_append, List.length_map, ih,
      List.length_cons]
    rw [Nat.choose_succ_succ, Nat.choose_one_right]

theorem pairwiseSimilarities_replicate {n : Nat} {s : String} :
    ∀ x ∈ pairwiseSimilarities (List.replicate n s), x = 1 := by
  induction n with
  | zero => simp [pairwiseSimilarities]
  | succ n ih =>
    intro x hx
    rw [List.replicate_succ] at hx
    simp only [pairwiseSimilarities, List.mem_append] at hx
    rcases hx with h | h
    · obtain ⟨u, hu, hxu⟩ := List.mem_map.mp h
      rw [← hxu, List.eq_of_mem_replicate hu]
      exact jaccardSimilarity_self s
    · exact ih x h

theorem sum_eq_length_of_all_one {l : List ℝ} (h : ∀ x ∈ l, x = 1) :
    l.sum = (l.length : ℝ) := by
  induction l with
  | nil => simp
  | cons a rest ih =>
    rw [List.sum_cons, h a (List.mem_cons_self a rest),
      ih (fun x hx => h x (List.mem_cons_of_mem a hx)), List.length_cons]
    push_cast
    ring

theorem calculateTextSimilarity_replicate {n : Nat} (hn : 2 ≤ n) (s : String) :
    calculateTextSimilarity (List.replicate n s) = 1 := by
  have hchoose : 0 < n.choose 2 := Nat.choose_pos hn
  have hlen : (pairwiseSimilarities (List.replicate n s)).length = n.choose 2 := by
    rw [pairwiseSimilarities_length, List.length_replicate]
  simp only [calculateTextSimilarity, List.length_replicate]
  rw [if_neg (by omega)]
  rw [if_neg (by
    intro h
    rw [h] at hlen
    simp at hlen
    omega)]
  rw [sum_eq_length_of_all_one pairwiseSimilarities_replicate]
  exact div_self (Nat.cast_ne_zero.mpr (by omega))

theorem listVariance_replicate (n : Nat) (c : ℝ) (hn : n ≠ 0) :
    listVariance (List.replicate n c) = 0 := by
  have hn0 : (n : ℝ) ≠ 0 := Nat.cast_ne_zero.mpr hn
  have hmean : listMean (List.replicate n c) = c := by
    unfold listMean
    rw [List.sum_replicate, List.length_replicate, nsmul_eq_mul]
    field_simp
  unfold listVariance
  rw [hmean, List.map_replicate]
  simp

theorem indicator_sum_nonneg (a σ s : ℝ) (hσ : 0 ≤ σ) :
    0 ≤ ((if (0.9 : ℝ) ≤ a then [0.4 * a] else []) ++
      (if σ < 5 then [0.3 * (1 - σ / 5)] else []) ++
      (if (0.7 : ℝ) < s then [0.3 * s] else [])).sum := by
  refine List.sum_nonneg ?_
  intro x hx
  simp only [List.mem_append] at hx
  rcases hx with (hx | hx) | hx
  · by_cases hc : (0.9 : ℝ) ≤ a
    · rw [if_pos hc] at hx
      simp only [List.mem_singleton] at hx
      subst hx
      nlinarith
    · rw [if_neg hc] at hx
      exact absurd hx (List.not_mem_nil x)
  · by_cases hc : σ < 5
    · rw [if_pos hc] at hx
      simp only [List.mem_singleton] at hx
      subst hx
      nlinarith
    · rw [if_neg hc] at hx
      exact absurd hx (List.not_mem_nil x)
  · by_cases hc : (0.7 : ℝ) < s
    · rw [if_pos hc] at hx
      simp only [List.mem_singleton] at hx
      subst hx
      nlinarith
    · rw [if_neg hc] at hx
      exact absurd hx (List.not_mem_nil x)

theorem detect_nonneg (rs : List MinerResponse) :
    0 ≤ detectResponseCoordination rs := by
  unfold detectResponseCoordination
  by_cases h : rs.length < 2
  · rw [if_pos h]
  · rw [if_neg h]
    exact le_min (indicator_sum_nonneg _ _ _ (Real.sqrt_nonneg _)) zero_le_one

theorem detect_le_one (rs : List MinerResponse) :
    detectResponseCoordination rs ≤ 1 := by
  unfold detectResponseCoordination
  by_cases h : rs.length < 2
  · rw [if_pos h]
    norm_num
  · rw [if_neg h]
    exact min_le_right _ _

theorem detect_single (r : MinerResponse) :
    detectResponseCoordination [r] = 0 := by
  unfold detectResponseCoordination
  rw [if_pos (by simp)]

theorem detect_replicate {n : Nat} (hn : 2 ≤ n) (r : MinerResponse) :
    detectResponseCoordination (List.replicate n r) = 1 := by
  have hn0 : (n : ℝ) ≠ 0 := Nat.cast_ne_zero.mpr (by omega)
  have hhead : (List.replicate n r).headI = r := by
    cases n with
    | zero => omega
    | succ m => simp [List.replicate_succ]
  have hfilter : (List.replicate n r).filter
      (fun x => x.resolution = (List.replicate n r).headI.resolution) =
      List.replicate n r := by
    rw [List.filter_eq_self]
    intro a ha
    rw [List.eq_of_mem_replicate ha, hhead]
    simp
  have hvar : listVariance ((List.replicate n r).map (fun x => x.confidence)) = 0 := by
    rw [List.map_replicate]
    exact listVariance_replicate n r.confidence (by omega)
  have hsim : calculateTextSimilarity
      ((List.replicate n r).map (fun x => strLower x.summary)) = 1 := by
    rw [List.map_replicate]
    exact calculateTextSimilarity_replicate hn (strLower r.summary)
  simp only [detectResponseCoordination]
  rw [if_neg (by simp; omega)]
  rw [hfilter, hvar, hsim, Real.sqrt_zero, List.length_replicate]
  rw [div_self hn0]
  rw [if_pos (by norm_num : (0.9 : ℝ) ≤ 1)]
  rw [if_pos (by norm_num : (0 : ℝ) < 5)]
  rw [if_pos (by norm_num : (0.7 : ℝ) < 1)]
  norm_num

/-! Lemmas about the stable descending sort. -/

theorem insertDesc_perm (r : MinerResponse) (l : List MinerResponse) :
    (insertDesc r l).Perm (r :: l) := by
  induction l with
  | nil => simp [insertDesc]
  | cons x xs ih =>
    unfold insertDesc
    by_cases h : x.confidence ≤ r.confidence
    · rw [if_pos h]
    · rw [if_neg h]
      exact (ih.cons x).trans (List.Perm.swap r x xs)

theorem sortByConfidenceDesc_perm (l : List MinerResponse) :
    (sortByConfidenceDesc l).Perm l := by
  induction l with
  | nil => simp [sortByConfidenceDesc]
  | cons x xs ih =>
    unfold sortByConfidenceDesc
    exact (insertDesc_perm x _).trans (ih.cons x)

theorem mem_sortByConfidenceDesc {x : MinerResponse} {l : List MinerResponse} :
    x ∈ sortByConfidenceDesc l ↔ x ∈ l :=
  (sortByConfidenceDesc_perm l).mem_iff

/-! Lemmas about the coldkey cap. -/

theorem resolveColdkey_congr (cks : List String) {a b : MinerResponse}
    (h : a.miner_uid = b.miner_uid) :
    resolveColdkey cks a = resolveColdkey cks b := by
  unfold resolveColdkey
  rw [h]

theorem attenuate_confidence (p : ℝ) (r : MinerResponse) :
    (attenuate p r).confidence = max 25 (r.confidence * (1 - p)) := rfl

theorem capUpdateResponse_fields (rs : List MinerResponse) (cks : List String)
    (r : MinerResponse) :
    (capUpdateResponse rs cks r).miner_uid = r.miner_uid ∧
    (capUpdateResponse rs cks r).resolution = r.resolution ∧
    (capUpdateResponse rs cks r).summary = r.summary ∧
    (capUpdateResponse rs cks r).sources = r.sources := by
  unfold capUpdateResponse
  cases resolveColdkey cks r with
  | none => exact ⟨rfl, rfl, rfl, rfl⟩
  | some c =>
    simp only []
    split
    · exact ⟨rfl, rfl, rfl, rfl⟩
    · exact ⟨rfl, rfl, rfl, rfl⟩

theorem capUpdateResponse_eq_of_not_multi (rs : List MinerResponse)
    (cks : List String) (r : MinerResponse)
    (h : ∀ c, resolveColdkey cks r = some c →
      ¬ 1 < (rs.filter (fun x => resolveColdkey cks x = some c)).length) :
    capUpdateResponse rs cks r = r := by
  unfold capUpdateResponse
  cases hk : resolveColdkey cks r with
  | none => rfl
  | some c =>
    simp only []
    rw [if_neg (fun hc => h c hk hc.1)]

theorem capUpdateResponse_confidence_bounds (rs : List MinerResponse)
    (cks : List String) (r : MinerResponse) :
    (capUpdateResponse rs cks r).confidence = r.confidence ∨
      (25 ≤ (capUpdateResponse rs cks r).confidence ∧
        (capUpdateResponse rs cks r).confidence ≤ max r.confidence 25) := by
  unfold capUpdateResponse
  cases resolveColdkey cks r with
  | none => left; rfl
  | some c =>
    simp only []
    split
    case isTrue hcond =>
      right
      set g := rs.filter (fun x => resolveColdkey cks x = some c) with hg
      have hp1 : detectResponseCoordination g ≤ 1 := detect_le_one g
      have hp0 : 0 < detectResponseCoordination g := hcond.2
      rw [attenuate_confidence]
      refine ⟨le_max_left _ _, max_le (le_max_right _ _) ?_⟩
      rcases le_or_lt 0 r.confidence with hc | hc
      · refine le_trans ?_ (le_max_left r.confidence 25)
        nlinarith
      · refine le_trans ?_ (le_max_right r.confidence 25)
        nlinarith
    case isFalse => left; rfl

theorem attenuateGroup_filter (rs : List MinerResponse) (cks : List String)
    (c : String) :
    attenuateGroup (rs.filter (fun x => resolveColdkey cks x = some c)) =
      (rs.filter (fun x => resolveColdkey cks x = some c)).map
        (capUpdateResponse rs cks) := by
  unfold attenuateGroup
  by_cases hcond : 1 < (rs.filter (fun x => resolveColdkey cks x = some c)).length ∧
      0 < detectResponseCoordination
        (rs.filter (fun x => resolveColdkey cks x = some c))
  · rw [if_pos hcond]
    refine List.map_congr_left ?_
    intro r hr
    have hrk : resolveColdkey cks r = some c :=
      of_decide_eq_true (List.mem_filter.mp hr).2
    unfold capUpdateResponse
    rw [hrk]
    simp only []
    rw [if_pos hcond]
  · rw [if_neg hcond]
    have hid : ∀ r ∈ rs.filter (fun x => resolveColdkey cks x = some c),
        capUpdateResponse rs cks r = r := by
      intro r hr
      have hrk : resolveColdkey cks r = some c :=
        of_decide_eq_true (List.mem_filter.mp hr).2
      unfold capUpdateResponse
      rw [hrk]
      simp only []
      rw [if_neg hcond]
    exact ((List.map_congr_left hid).trans (List.map_id _)).symm

theorem applyColdkeyConsensusCap_some (rs : List MinerResponse) (m : Metagraph)
    (cks : List String) (hrs : ¬ rs = []) (hck : m.coldkeys = some cks) :
    applyColdkeyConsensusCap rs m =
      .ok (rs.map (capUpdateResponse rs cks),
        rs.filter (fun r => resolveColdkey cks r = none) ++
          (groupByFA (resolveColdkey cks) rs).flatMap
            (fun p => capAdmit (capValue cks) (attenuateGroup p.2))) := by
  unfold applyColdkeyConsensusCap
  rw [if_neg hrs, hck]

theorem applyColdkeyConsensusCap_updated (rs : List MinerResponse) (m : Metagraph)
    (upd capped : List MinerResponse)
    (h : applyColdkeyConsensusCap rs m = .ok (upd, capped)) :
    upd = rs ∨ ∃ cks, m.coldkeys = some cks ∧
      upd = rs.map (capUpdateResponse rs cks) := by
  by_cases hrs : rs = []
  · left
    unfold applyColdkeyConsensusCap at h
    rw [if_pos hrs] at h
    exact (Prod.ext_iff.mp (Except.ok.inj h)).1.symm
  · cases hck : m.coldkeys with
    | none =>
      left
      unfold applyColdkeyConsensusCap at h
      rw [if_neg hrs, hck] at h
      by_cases hany : rs.any (fun r => r.miner_uid.isSome)
      · rw [if_pos hany] at h
        exact absurd h (by simp)
      · rw [if_neg hany] at h
        exact (Prod.ext_iff.mp (Except.ok.inj h)).1.symm
    | some cks =>
      right
      refine ⟨cks, rfl, ?_⟩
      rw [applyColdkeyConsensusCap_some rs m cks hrs hck] at h
      exact (Prod.ext_iff.mp (Except.ok.inj h)).1.symm

theorem mem_capAdmit {cap : Nat} {g : List MinerResponse} {x : MinerResponse}
    (hx : x ∈ capAdmit cap g) : x ∈ g := by
  unfold capAdmit at hx
  split at hx
  · exact hx
  · exact mem_sortByConfidenceDesc.mp (List.mem_of_mem_take hx)

theorem capAdmit_length_le (cap : Nat) (g : List MinerResponse) :
    (capAdmit cap g).length ≤ cap := by
  unfold capAdmit
  split
  case isTrue h => exact h
  case isFalse h =>
    rw [List.length_take, (sortByConfidenceDesc_perm g).length_eq]
    omega

theorem flatMap_eq_single {K β : Type} [DecidableEq K] (ks : List K)
    (hnd : ks.Nodup) (f : K → List β) (c : K)
    (hf : ∀ k ∈ ks, ¬ k = c → f k = []) :
    ks.flatMap f = if c ∈ ks then f c else [] := by
  induction ks with
  | nil => simp
  | cons k ks ih =>
    rw [List.flatMap_cons]
    by_cases hkc : k = c
    · subst hkc
      have hnotin : k ∉ ks := (List.nodup_cons.mp hnd).1
      have hrest : ks.flatMap f = [] := by
        rw [List.flatMap_eq_nil_iff]
        intro x hx
        exact hf x (List.mem_cons_of_mem k hx) (fun he => hnotin (he ▸ hx))
      rw [hrest, if_pos (List.mem_cons_self k ks)]
      simp
    · rw [hf k (List.mem_cons_self k ks) hkc, List.nil_append]
      rw [ih (List.nodup_cons.mp hnd).2 (fun x hx hxc => hf x (List.mem_cons_of_mem k hx) hxc)]
      by_cases hc : c ∈ ks
      · rw [if_pos hc, if_pos (List.mem_cons_of_mem k hc)]
      · rw [if_neg hc, if_neg (by
          intro h
          rcases List.mem_cons.mp h with h | h
          · exact hkc h.symm
          · exact hc h)]

theorem mem_capAdmit_attenuateGroup_resolves (rs : List MinerResponse)
    (cks : List String) (k : String) (x : MinerResponse)
    (hx : x ∈ capAdmit (capValue cks)
      (attenuateGroup (rs.filter (fun y => resolveColdkey cks y = some k)))) :
    resolveColdkey cks x = some k := by
  have hx2 : x ∈ attenuateGroup (rs.filter (fun y => resolveColdkey cks y = some k)) :=
    mem_capAdmit hx
  rw [attenuateGroup_filter] at hx2
  obtain ⟨y, hy, rfl⟩ := List.mem_map.mp hx2
  have hyk : resolveColdkey cks y = some k :=
    of_decide_eq_true (List.mem_filter.mp hy).2
  rw [resolveColdkey_congr cks ((capUpdateResponse_fields rs cks y).1)]
  exact hyk

theorem capped_filter_eq (rs : List MinerResponse) (cks : List String) (c : String) :
    (rs.filter (fun r => resolveColdkey cks r = none) ++
      (groupByFA (resolveColdkey cks) rs).flatMap
        (fun p => capAdmit (capValue cks) (attenuateGroup p.2))).filter
      (fun r => resolveColdkey cks r = some c) =
    capAdmit (capValue cks)
      (attenuateGroup (rs.filter (fun x => resolveColdkey cks x = some c))) := by
  rw [List.filter_append]
  have hbp : (rs.filter (fun r => resolveColdkey cks r = none)).filter
      (fun r => resolveColdkey cks r = some c) = [] := by
    rw [List.filter_eq_nil_iff]
    intro a ha hac
    have h1 : resolveColdkey cks a = none :=
      of_decide_eq_true (List.mem_filter.mp ha).2
    have h2 : resolveColdkey cks a = some c := of_decide_eq_true hac
    rw [h1] at h2
    exact Option.noConfusion h2
  rw [hbp, List.nil_append, List.filter_flatMap, groupByFA_eq, List.flatMap_map]
  dsimp only
  rw [flatMap_eq_single _ (dedupFA_nodup _) _ c (by
    intro k _ hkc
    rw [List.filter_eq_nil_iff]
    intro x hx hxc
    have := mem_capAdmit_attenuateGroup_resolves rs cks k x hx
    rw [of_decide_eq_true hxc] at this
    exact hkc (Option.some.inj this).symm)]
  by_cases hc : c ∈ dedupFA (rs.filterMap (resolveColdkey cks))
  · rw [if_pos hc]
    rw [List.filter_eq_self.mpr (fun x hx =>
      decide_eq_true (mem_capAdmit_attenuateGroup_resolves rs cks c x hx))]
  · rw [if_neg hc]
    have hnil : rs.filter (fun x => resolveColdkey cks x = some c) = [] := by
      rw [List.filter_eq_nil_iff]
      intro a ha hac
      exact hc (mem_dedupFA.mpr
        (List.mem_filterMap.mpr ⟨a, ha, of_decide_eq_true hac⟩))
    rw [hnil]
    have h1 : attenuateGroup [] = [] := by simp [attenuateGroup]
    rw [h1]
    simp [capAdmit]

/-! Lemmas about score normalization and the merge of mutated responses. -/

theorem normalizeScores_sum_one (m : List (Nat × ℝ)) (hm : ¬ m = []) :
    ((normalizeScores m).map (fun p => p.2)).sum = 1 := by
  have hlen : (m.length : ℝ) ≠ 0 :=
    Nat.cast_ne_zero.mpr (fun h => hm (List.length_eq_zero.mp h))
  unfold normalizeScores
  rw [if_neg hm]
  by_cases h : (m.map (fun p => p.2)).sum = 0
  · rw [if_pos h, List.map_map]
    have hconst : ((fun p : Nat × ℝ => p.2) ∘
        (fun p : Nat × ℝ => (p.1, 1 / (m.length : ℝ)))) =
        fun _ => 1 / (m.length : ℝ) := rfl
    rw [hconst, List.map_const', List.sum_replicate, nsmul_eq_mul]
    field_simp
  · rw [if_neg h, List.map_map]
    have hdiv : ((fun p : Nat × ℝ => p.2) ∘
        (fun p : Nat × ℝ => (p.1, p.2 / (m.map (fun p => p.2)).sum))) =
        fun p : Nat × ℝ => p.2 * ((m.map (fun p => p.2)).sum)⁻¹ := by
      funext p
      simp [div_eq_mul_inv]
    rw [hdiv, List.sum_map_mul_right, mul_inv_cancel₀ h]

theorem normalizeScores_uniform (m : List (Nat × ℝ)) (hm : ¬ m = [])
    (hz : ∀ p ∈ m, p.2 = 0) :
    ∀ p ∈ normalizeScores m, p.2 = 1 / (m.length : ℝ) := by
  unfold normalizeScores
  rw [if_neg hm]
  have htot : (m.map (fun p => p.2)).sum = 0 := by
    refine List.sum_eq_zero ?_
    intro x hx
    obtain ⟨q, hq, rfl⟩ := List.mem_map.mp hx
    exact hz q hq
  rw [if_pos htot]
  intro p hp
  obtain ⟨q, hq, rfl⟩ := List.mem_map.mp hp
  rfl

theorem mergeValid_eq_map (rs : List MinerResponse)
    (F : MinerResponse → MinerResponse) :
    mergeValid rs ((rs.filter (fun r => r.is_valid)).map F) =
      rs.map (fun r => if r.is_valid then F r else r) := by
  induction rs with
  | nil => rfl
  | cons r rest ih =>
    rw [List.filter_cons]
    by_cases h : r.is_valid
    · rw [if_pos (decide_eq_true h), List.map_cons]
      show mergeValid (r :: rest) (F r :: (rest.filter (fun x => x.is_valid)).map F) = _
      unfold mergeValid
      rw [if_pos h]
      rw [List.map_cons, if_pos h]
      exact congrArg (F r :: ·) ih
    · rw [if_neg (by simpa using h)]
      show mergeValid (r :: rest) ((rest.filter (fun x => x.is_valid)).map F) = _
      unfold mergeValid
      rw [if_neg h, List.map_cons, if_neg h]
      exact congrArg (r :: ·) ih

/-! Run lemmas: one equation per execution path of `_calculate_consensus`, and
projection equations for the public entry points. -/

theorem calculateConsensusAux_nil (mg : Option Metagraph) (rng : Rng) :
    calculateConsensusAux [] mg rng = ⟨[], [], none, rng⟩ := by
  unfold calculateConsensusAux
  rw [if_pos rfl]

theorem calculateConsensusAux_no_mg (rs : List MinerResponse) (rng : Rng)
    (hrs : ¬ rs = []) :
    calculateConsensusAux rs none rng =
      ⟨rs, rs, calculateWeightedConsensus rs, rng⟩ := by
  unfold calculateConsensusAux
  rw [if_neg hrs]

theorem calculateConsensusAux_cap_cross (rs : List MinerResponse) (m : Metagraph)
    (rng : Rng) (upd capped filtered : List MinerResponse) (rng2 : Rng)
    (hrs : ¬ rs = [])
    (hcap : applyColdkeyConsensusCap rs m = .ok (upd, capped))
    (hcross : detectCrossColdkeySimilarity capped m rng = .ok (filtered, rng2)) :
    calculateConsensusAux rs (some m) rng =
      ⟨upd, filtered, calculateWeightedConsensus filtered, rng2⟩ := by
  unfold calculateConsensusAux
  rw [if_neg hrs]
  simp only [hcap, hcross]

theorem calculateConsensusAux_cap_crossErr_stake (rs : List MinerResponse)
    (m : Metagraph) (rng : Rng) (upd capped st : List MinerResponse) (rng2 : Rng)
    (hrs : ¬ rs = [])
    (hcap : applyColdkeyConsensusCap rs m = .ok (upd, capped))
    (hcross : detectCrossColdkeySimilarity capped m rng = .error ())
    (hst : applyStakeBasedProtection capped m rng = .ok (st, rng2)) :
    calculateConsensusAux rs (some m) rng =
      ⟨upd, st, calculateWeightedConsensus st, rng2⟩ := by
  unfold calculateConsensusAux
  rw [if_neg hrs]
  simp only [hcap, hcross, hst]

theorem calculateConsensusAux_cap_crossErr_stakeErr (rs : List MinerResponse)
    (m : Metagraph) (rng : Rng) (upd capped : List MinerResponse)
    (hrs : ¬ rs = [])
    (hcap : applyColdkeyConsensusCap rs m = .ok (upd, capped))
    (hcross : detectCrossColdkeySimilarity capped m rng = .error ())
    (hst : applyStakeBasedProtection capped m rng = .error ()) :
    calculateConsensusAux rs (some m) rng =
      ⟨upd, capped, calculateWeightedConsensus capped, rng⟩ := by
  unfold calculateConsensusAux
  rw [if_neg hrs]
  simp only [hcap, hcross, hst]

theorem calculateConsensusAux_capErr_stake (rs : List MinerResponse)
    (m : Metagraph) (rng : Rng) (st : List MinerResponse) (rng2 : Rng)
    (hrs : ¬ rs = [])
    (hcap : applyColdkeyConsensusCap rs m = .error ())
    (hst : applyStakeBasedProtection rs m rng = .ok (st, rng2)) :
    calculateConsensusAux rs (some m) rng =
      ⟨rs, st, calculateWeightedConsensus st, rng2⟩ := by
  unfold calculateConsensusAux
  rw [if_neg hrs]
  simp only [hcap, hst]

theorem calculateConsensusAux_capErr_stakeErr (rs : List MinerResponse)
    (m : Metagraph) (rng : Rng)
    (hrs : ¬ rs = [])
    (hcap : applyColdkeyConsensusCap rs m = .error ())
    (hst : applyStakeBasedProtection rs m rng = .error ()) :
    calculateConsensusAux rs (some m) rng =
      ⟨rs, rs, calculateWeightedConsensus rs, rng⟩ := by
  unfold calculateConsensusAux
  rw [if_neg hrs]
  simp only [hcap, hst]

theorem calculateConsensusAux_updated (rs : List MinerResponse)
    (mg : Option Metagraph) (rng : Rng) :
    (calculateConsensusAux rs mg rng).updated = rs ∨
      ∃ m cks, mg = some m ∧ m.coldkeys = some cks ∧
        (calculateConsensusAux rs mg rng).updated =
          rs.map (capUpdateResponse rs cks) := by
  by_cases hrs : rs = []
  · left
    subst hrs
    rw [calculateConsensusAux_nil]
  · cases mg with
    | none =>
      left
      rw [calculateConsensusAux_no_mg rs rng hrs]
    | some m =>
      cases hcap : applyColdkeyConsensusCap rs m with
      | ok pr =>
        obtain ⟨upd, capped⟩ := pr
        have hupd := applyColdkeyConsensusCap_updated rs m upd capped hcap
        have hconc : (calculateConsensusAux rs (some m) rng).updated = upd := by
          cases hcross : detectCrossColdkeySimilarity capped m rng with
          | ok pr2 =>
            obtain ⟨filtered, rng2⟩ := pr2
            rw [calculateConsensusAux_cap_cross rs m rng upd capped filtered rng2
              hrs hcap hcross]
          | error e =>
            obtain rfl : e = () := rfl
            cases hst : applyStakeBasedProtection capped m rng with
            | ok pr2 =>
              obtain ⟨st, rng2⟩ := pr2
              rw [calculateConsensusAux_cap_crossErr_stake rs m rng upd capped st
                rng2 hrs hcap hcross hst]
            | error e2 =>
              obtain rfl : e2 = () := rfl
              rw [calculateConsensusAux_cap_crossErr_stakeErr rs m rng upd capped
                hrs hcap hcross hst]
        rw [hconc]
        rcases hupd with h | ⟨cks, hck, h⟩
        · left
          exact h
        · right
          exact ⟨m, cks, rfl, hck, h⟩
      | error e =>
        obtain rfl : e = () := rfl
        left
        cases hst : applyStakeBasedProtection rs m rng with
        | ok pr2 =>
          obtain ⟨st, rng2⟩ := pr2
          rw [calculateConsensusAux_capErr_stake rs m rng st rng2 hrs hcap hst]
        | error e2 =>
          obtain rfl : e2 = () := rfl
          rw [calculateConsensusAux_capErr_stakeErr rs m rng hrs hcap hst]

theorem calculateScores_updated (cfg : WeightsConfig) (st : Statement)
    (responses : List MinerResponse) (mg : Option Metagraph) (rng : Rng) :
    (calculateScores cfg st responses none mg rng).updated =
      if responses = [] then responses
      else (calculateConsensusAux responses mg rng).updated := by
  unfold calculateScores
  by_cases h : responses = []
  · rw [if_pos h, if_pos h]
  · rw [if_neg h, if_neg h]

theorem calculateConsensus_responses_eq (cfg : WeightsConfig) (st : Statement)
    (rs : List MinerResponse) (mg : Option Metagraph) (rng : Rng)
    (acc : List (Nat × List ℝ)) (hrs : ¬ rs = []) :
    (calculateConsensus cfg st rs mg rng acc).responses =
      mergeValid rs (calculateScores cfg st
        (calculateConsensusAux (rs.filter (fun r => r.is_valid)) mg rng).updated
        none mg
        (calculateConsensusAux (rs.filter (fun r => r.is_valid)) mg rng).rng).updated := by
  unfold calculateConsensus
  rw [if_neg hrs]

theorem calculateConsensus_resolution_eq (cfg : WeightsConfig) (st : Statement)
    (rs : List MinerResponse) (mg : Option Metagraph) (rng : Rng)
    (acc : List (Nat × List ℝ)) (hrs : ¬ rs = []) :
    (calculateConsensus cfg st rs mg rng acc).result.consensus_resolution =
      (calculateConsensusAux (rs.filter (fun r => r.is_valid)) mg
        rng).consensus.getD Resolution.PENDING := by
  unfold calculateConsensus
  rw [if_neg hrs]

theorem calculateConsensus_confidence_eq (cfg : WeightsConfig) (st : Statement)
    (rs : List MinerResponse) (mg : Option Metagraph) (rng : Rng)
    (acc : List (Nat × List ℝ)) (hrs : ¬ rs = []) :
    (calculateConsensus cfg st rs mg rng acc).result.consensus_confidence =
      (if ((calculateConsensusAux (rs.filter (fun r => r.is_valid)) mg
            rng).updated.filter (fun r => some r.resolution =
            (calculateConsensusAux (rs.filter (fun r => r.is_valid)) mg
              rng).consensus)) = [] then (0 : ℝ)
       else (((calculateConsensusAux (rs.filter (fun r => r.is_valid)) mg
            rng).updated.filter (fun r => some r.resolution =
            (calculateConsensusAux (rs.filter (fun r => r.is_valid)) mg
              rng).consensus)).map (fun r => r.confidence)).sum /
          (((calculateConsensusAux (rs.filter (fun r => r.is_valid)) mg
            rng).updated.filter (fun r => some r.resolution =
            (calculateConsensusAux (rs.filter (fun r => r.is_valid)) mg
              rng).consensus)).length : ℝ)) := by
  unfold calculateConsensus
  rw [if_neg hrs]

theorem calculateConsensus_scores_eq (cfg : WeightsConfig) (st : Statement)
    (rs : List MinerResponse) (mg : Option Metagraph) (rng : Rng)
    (acc : List (Nat × List ℝ)) (hrs : ¬ rs = []) :
    (calculateConsensus cfg st rs mg rng acc).result.miner_scores =
      (calculateScores cfg st
        (calculateConsensusAux (rs.filter (fun r => r.is_valid)) mg rng).updated
        none mg
        (calculateConsensusAux (rs.filter (fun r => r.is_valid)) mg rng).rng).scores := by
  unfold calculateConsensus
  rw [if_neg hrs]

theorem calculateConsensus_nil (cfg : WeightsConfig) (st : Statement)
    (mg : Option Metagraph) (rng : Rng) (acc : List (Nat × List ℝ)) :
    calculateConsensus cfg st [] mg rng acc =
      ⟨⟨Resolution.PENDING, 0, 0, 0, [], []⟩, [], rng, acc⟩ := by
  unfold calculateConsensus
  rw [if_pos rfl]

theorem filter_resolve_length_map (V : List MinerResponse) (cks : List String)
    (g : MinerResponse → MinerResponse)
    (hg : ∀ r, (g r).miner_uid = r.miner_uid) (c : String) :
    ((V.map g).filter (fun x => resolveColdkey cks x = some c)).length =
      (V.filter (fun x => resolveColdkey cks x = some c)).length := by
  induction V with
  | nil => rfl
  | cons r rest ih =>
    rw [List.map_cons, List.filter_cons, List.filter_cons]
    have hres : resolveColdkey cks (g r) = resolveColdkey cks r :=
      resolveColdkey_congr cks (hg r)
    rw [hres]
    by_cases h : resolveColdkey cks r = some c
    · rw [if_pos (decide_eq_true h), if_pos (decide_eq_true h)]
      simp [ih]
    · rw [if_neg (by simpa using h), if_neg (by simpa using h)]
      exact ih

theorem calculateConsensus_responses_map (cfg : WeightsConfig) (st : Statement)
    (rs : List MinerResponse) (mg : Option Metagraph) (rng : Rng)
    (acc : List (Nat × List ℝ)) :
    ∃ F : MinerResponse → MinerResponse,
      (calculateConsensus cfg st rs mg rng acc).responses =
        rs.map (fun r => if r.is_valid then F r else r) ∧
      (∀ r, (F r).miner_uid = r.miner_uid ∧ (F r).resolution = r.resolution ∧
        (F r).summary = r.summary ∧ (F r).sources = r.sources) ∧
      (∀ r, r.is_valid → ¬ inMultiMemberColdkeyGroup rs mg r → F r = r) := by
  by_cases hrs : rs = []
  · subst hrs
    refine ⟨id, ?_, fun r => ⟨rfl, rfl, rfl, rfl⟩, fun r _ _ => rfl⟩
    rw [calculateConsensus_nil]
    rfl
  · have hstep1 : ∃ F₁ : MinerResponse → MinerResponse,
        (calculateConsensusAux (rs.filter (fun r => r.is_valid)) mg rng).updated =
          (rs.filter (fun r => r.is_valid)).map F₁ ∧
        (∀ r, (F₁ r).miner_uid = r.miner_uid ∧ (F₁ r).resolution = r.resolution ∧
          (F₁ r).summary = r.summary ∧ (F₁ r).sources = r.sources) ∧
        (∀ r, (∀ m cks c, mg = some m → m.coldkeys = some cks →
            resolveColdkey cks r = some c →
            ¬ 1 < ((rs.filter (fun x => x.is_valid)).filter
              (fun x => resolveColdkey cks x = some c)).length) → F₁ r = r) := by
      rcases calculateConsensusAux_updated (rs.filter (fun r => r.is_valid)) mg rng
        with h1 | ⟨m, cks, hmg, hck, h1⟩
      · exact ⟨id, by rw [h1, List.map_id], fun r => ⟨rfl, rfl, rfl, rfl⟩,
          fun r _ => rfl⟩
      · refine ⟨capUpdateResponse (rs.filter (fun r => r.is_valid)) cks, h1,
          fun r => capUpdateResponse_fields _ cks r, ?_⟩
        intro r hr
        exact capUpdateResponse_eq_of_not_multi _ cks r
          (fun c hc => hr m cks c hmg hck hc)
    obtain ⟨F₁, hU1, hf1, hc1⟩ := hstep1
    set V := rs.filter (fun r => r.is_valid) with hV
    have hstep2 : ∃ F₂ : MinerResponse → MinerResponse,
        (calculateScores cfg st
          (calculateConsensusAux V mg rng).updated none mg
          (calculateConsensusAux V mg rng).rng).updated =
          (V.map F₁).map F₂ ∧
        (∀ r, (F₂ r).miner_uid = r.miner_uid ∧ (F₂ r).resolution = r.resolution ∧
          (F₂ r).summary = r.summary ∧ (F₂ r).sources = r.sources) ∧
        (∀ r, (∀ m cks c, mg = some m → m.coldkeys = some cks →
            resolveColdkey cks r = some c →
            ¬ 1 < ((V.map F₁).filter
              (fun x => resolveColdkey cks x = some c)).length) → F₂ r = r) := by
      rw [calculateScores_updated, hU1]
      by_cases hnil : V.map F₁ = []
      · refine ⟨id, ?_, fun r => ⟨rfl, rfl, rfl, rfl⟩, fun r _ => rfl⟩
        rw [if_pos hnil, List.map_id]
      · rw [if_neg hnil]
        rcases calculateConsensusAux_updated (V.map F₁) mg
          (calculateConsensusAux V mg rng).rng
          with h2 | ⟨m, cks, hmg, hck, h2⟩
        · exact ⟨id, by rw [h2, List.map_id], fun r => ⟨rfl, rfl, rfl, rfl⟩,
            fun r _ => rfl⟩
        · refine ⟨capUpdateResponse (V.map F₁) cks, h2,
            fun r => capUpdateResponse_fields _ cks r, ?_⟩
          intro r hr
          exact capUpdateResponse_eq_of_not_multi _ cks r
            (fun c hc => hr m cks c hmg hck hc)
    obtain ⟨F₂, hU2, hf2, hc2⟩ := hstep2
    refine ⟨fun r => F₂ (F₁ r), ?_, ?_, ?_⟩
    · rw [calculateConsensus_responses_eq cfg st rs mg rng acc hrs, ← hV, hU2,
        List.map_map]
      exact mergeValid_eq_map rs (F₂ ∘ F₁)
    · intro r
      obtain ⟨u1, r1, s1, o1⟩ := hf1 r
      obtain ⟨u2, r2, s2, o2⟩ := hf2 (F₁ r)
      exact ⟨u2.trans u1, r2.trans r1, s2.trans s1, o2.trans o1⟩
    · intro r hval hmulti
      have hnm : ∀ m cks c, mg = some m → m.coldkeys = some cks →
          resolveColdkey cks r = some c →
          ¬ 1 < (V.filter (fun x => resolveColdkey cks x = some c)).length := by
        intro m cks c hmg hck hres hlen
        exact hmulti ⟨hval, m, cks, c, hmg, hck, hres, by
          rw [hV] at hlen
          exact hlen⟩
      have h1 : F₁ r = r := hc1 r (by
        intro m cks c hmg hck hres
        exact hnm m cks c hmg hck hres)
      have h2 : F₂ r = r := hc2 r (by
        intro m cks c hmg hck hres
        rw [filter_resolve_length_map V cks F₁ (fun x => (hf1 x).1) c]
        exact hnm m cks c hmg hck hres)
      show F₂ (F₁ r) = r
      rw [h1, h2]

theorem get_congr_list {α : Type} {l l' : List α} (h : l = l') {i : Nat}
    (hi : i < l.length) (hi' : i < l'.length) :
    l.get ⟨i, hi⟩ = l'.get ⟨i, hi'⟩ := by
  subst h
  rfl

/-! Concrete evaluation of the coldkey cap on the C2 input. -/

theorem c2_resolve : resolveColdkey ["CK"] c2resp = some "CK" := by
  simp [resolveColdkey, c2resp]

theorem c2_detect : detectResponseCoordination c2rs = 1 := by
  have h : c2rs = List.replicate 2 c2resp := rfl
  rw [h]
  exact detect_replicate (by norm_num) c2resp

theorem c2_filter_group :
    c2rs.filter (fun x => resolveColdkey ["CK"] x = some "CK") = c2rs := by
  rw [List.filter_eq_self]
  intro a ha
  have : a = c2resp := by
    rcases List.mem_cons.mp ha with h | h
    · exact h
    · simpa using h
  rw [this, c2_resolve]
  simp

theorem c2_attenuate : attenuate 1 c2resp = c2respA := by
  unfold attenuate c2resp c2respA
  congr 1
  norm_num

theorem c2_update : capUpdateResponse c2rs ["CK"] c2resp = c2respA := by
  unfold capUpdateResponse
  rw [c2_resolve]
  simp only []
  rw [c2_filter_group]
  rw [if_pos (by
    refine ⟨by norm_num [c2rs], ?_⟩
    rw [c2_detect]
    norm_num)]
  rw [c2_detect, c2_attenuate]

theorem c2_cap_eval :
    applyColdkeyConsensusCap c2rs c2mg = .ok ([c2respA, c2respA], [c2respA]) := by
  rw [applyColdkeyConsensusCap_some c2rs c2mg ["CK"] (by simp [c2rs]) rfl]
  refine congrArg Except.ok (Prod.ext ?_ ?_)
  · show c2rs.map (capUpdateResponse c2rs ["CK"]) = [c2respA, c2respA]
    show [capUpdateResponse c2rs ["CK"] c2resp,
      capUpdateResponse c2rs ["CK"] c2resp] = [c2respA, c2respA]
    rw [c2_update]
  · show c2rs.filter (fun r => resolveColdkey ["CK"] r = none) ++
      (groupByFA (resolveColdkey ["CK"]) c2rs).flatMap
        (fun p => capAdmit (capValue ["CK"]) (attenuateGroup p.2)) = [c2respA]
    have hbp : c2rs.filter (fun r => resolveColdkey ["CK"] r = none) = [] := by
      rw [List.filter_eq_nil_iff]
      intro a ha hn
      have : a = c2resp := by
        rcases List.mem_cons.mp ha with h | h
        · exact h
        · simpa using h
      rw [this, c2_resolve] at hn
      simp at hn
    have hgr : groupByFA (resolveColdkey ["CK"]) c2rs = [("CK", c2rs)] := by
      show groupByFA (resolveColdkey ["CK"]) [c2resp, c2resp] = [("CK", c2rs)]
      unfold groupByFA
      rw [List.foldl_cons, List.foldl_cons, List.foldl_nil]
      rw [c2_resolve]
      simp [c2rs]
    have hatt : attenuateGroup c2rs = [c2respA, c2respA] := by
      unfold attenuateGroup
      rw [if_pos (by
        refine ⟨by norm_num [c2rs], ?_⟩
        rw [c2_detect]
        norm_num)]
      rw [c2_detect]
      show [attenuate 1 c2resp, attenuate 1 c2resp] = [c2respA, c2respA]
      rw [c2_attenuate]
    have hsort : sortByConfidenceDesc [c2respA, c2respA] = [c2respA, c2respA] := by
      have h1 : insertDesc c2respA [] = [c2respA] := rfl
      show insertDesc c2respA (insertDesc c2respA []) = [c2respA, c2respA]
      rw [h1]
      unfold insertDesc
      rw [if_pos (le_refl _)]
    have hadmit : capAdmit (capValue ["CK"]) [c2respA, c2respA] = [c2respA] := by
      unfold capAdmit
      rw [if_neg (by simp [capValue])]
      rw [hsort]
      simp [capValue]
    rw [hbp, List.nil_append, hgr, List.flatMap_cons, List.flatMap_nil,
      List.append_nil]
    show capAdmit (capValue ["CK"]) (attenuateGroup c2rs) = [c2respA]
    rw [hatt, hadmit]

/-! Claim theorems. -/

/-- C1: for every fixed input (statement, responses, network view, accumulator) and
pinned pseudo-random state, two calls to `calculate_consensus` return structurally
identical `ValidationResult`s: same consensus verdict, confidence, score map, and
source list.  In this pure embedding the process-global random module is an explicit
generator state, so the subsampling randomness is pinned by fixing it. -/
theorem C1_determinism (cfg : WeightsConfig) (st1 st2 : Statement)
    (rs1 rs2 : List MinerResponse) (mg1 mg2 : Option Metagraph)
    (rng1 rng2 : Rng) (acc1 acc2 : List (Nat × List ℝ))
    (hst : st1 = st2) (hrs : rs1 = rs2) (hmg : mg1 = mg2) (hrng : rng1 = rng2)
    (hacc : acc1 = acc2) :
    (calculateConsensus cfg st1 rs1 mg1 rng1 acc1).result.consensus_resolution =
      (calculateConsensus cfg st2 rs2 mg2 rng2 acc2).result.consensus_resolution ∧
    (calculateConsensus cfg st1 rs1 mg1 rng1 acc1).result.consensus_confidence =
      (calculateConsensus cfg st2 rs2 mg2 rng2 acc2).result.consensus_confidence ∧
    (calculateConsensus cfg st1 rs1 mg1 rng1 acc1).result.miner_scores =
      (calculateConsensus cfg st2 rs2 mg2 rng2 acc2).result.miner_scores ∧
    (calculateConsensus cfg st1 rs1 mg1 rng1 acc1).result.consensus_sources =
      (calculateConsensus cfg st2 rs2 mg2 rng2 acc2).result.consensus_sources ∧
    (calculateConsensus cfg st1 rs1 mg1 rng1 acc1).result =
      (calculateConsensus cfg st2 rs2 mg2 rng2 acc2).result := by
  subst hst
  subst hrs
  subst hmg
  subst hrng
  subst hacc
  exact ⟨rfl, rfl, rfl, rfl, rfl⟩

/-- Witness for C1 at a concrete input. -/
theorem C1_determinism_witness :
    (calculateConsensus defaultConfig ⟨"s"⟩ c5rs none 0 []).result.consensus_resolution =
      (calculateConsensus defaultConfig ⟨"s"⟩ c5rs none 0 []).result.consensus_resolution ∧
    (calculateConsensus defaultConfig ⟨"s"⟩ c5rs none 0 []).result.consensus_confidence =
      (calculateConsensus defaultConfig ⟨"s"⟩ c5rs none 0 []).result.consensus_confidence ∧
    (calculateConsensus defaultConfig ⟨"s"⟩ c5rs none 0 []).result.miner_scores =
      (calculateConsensus defaultConfig ⟨"s"⟩ c5rs none 0 []).result.miner_scores ∧
    (calculateConsensus defaultConfig ⟨"s"⟩ c5rs none 0 []).result.consensus_sources =
      (calculateConsensus defaultConfig ⟨"s"⟩ c5rs none 0 []).result.consensus_sources ∧
    (calculateConsensus defaultConfig ⟨"s"⟩ c5rs none 0 []).result =
      (calculateConsensus defaultConfig ⟨"s"⟩ c5rs none 0 []).result :=
  C1_determinism defaultConfig ⟨"s"⟩ ⟨"s"⟩ c5rs c5rs none none 0 0 [] []
    rfl rfl rfl rfl rfl

/-- C2 counterexample: a two-member coldkey group of identical responses with
confidence 10 receives coordination penalty 1, and the attenuation
`max(25, 10 * (1 - 1))` LIFTS the confidence from 10 to 25, contradicting the
claim that the post-cap confidence is at most the original value. -/
theorem C2_attenuation_counterexample :
    detectResponseCoordination c2rs = 1 ∧
    applyColdkeyConsensusCap c2rs c2mg = .ok ([c2respA, c2respA], [c2respA]) ∧
    c2resp.confidence = 10 ∧ c2respA.confidence = 25 ∧
    ¬ c2respA.confidence ≤ c2resp.confidence :=
  ⟨c2_detect, c2_cap_eval, rfl, rfl, by norm_num [c2respA, c2resp]⟩

/-- C2 amended: attenuation during the coldkey-cap step either leaves a response's
confidence unchanged, or moves it into the band [25, max(original, 25)]: it never
drives it below 25 and never lifts it above max(original, 25); for an original
confidence below 25 it can LIFT the confidence up to the floor 25. -/
theorem C2_attenuation_amended (rs : List MinerResponse) (m : Metagraph)
    (upd capped : List MinerResponse)
    (hcap : applyColdkeyConsensusCap rs m = .ok (upd, capped))
    (i : Nat) (h : i < rs.length) (h2 : i < upd.length) :
    (upd.get ⟨i, h2⟩).confidence = (rs.get ⟨i, h⟩).confidence ∨
      (25 ≤ (upd.get ⟨i, h2⟩).confidence ∧
        (upd.get ⟨i, h2⟩).confidence ≤ max (rs.get ⟨i, h⟩).confidence 25) := by
  rcases applyColdkeyConsensusCap_updated rs m upd capped hcap with h1 | ⟨cks, _, h1⟩
  · left
    rw [get_congr_list h1 h2 h]
  · have hget : upd.get ⟨i, h2⟩ = capUpdateResponse rs cks (rs.get ⟨i, h⟩) := by
      rw [get_congr_list h1 h2 (by
        rw [List.length_map]
        exact h)]
      rw [List.get_eq_getElem, List.getElem_map]
      rfl
    rw [hget]
    exact capUpdateResponse_confidence_bounds rs cks (rs.get ⟨i, h⟩)

/-- Witness for the amended C2 at the concrete counterexample input. -/
theorem C2_attenuation_amended_witness :
    (([c2respA, c2respA].get ⟨0, by norm_num⟩).confidence =
        (c2rs.get ⟨0, by simp [c2rs]⟩).confidence) ∨
      (25 ≤ ([c2respA, c2respA].get ⟨0, by norm_num⟩).confidence ∧
        ([c2respA, c2respA].get ⟨0, by norm_num⟩).confidence ≤
          max (c2rs.get ⟨0, by simp [c2rs]⟩).confidence 25) :=
  C2_attenuation_amended c2rs c2mg [c2respA, c2respA] [c2respA] c2_cap_eval 0
    (by simp [c2rs]) (by norm_num)

/-- C6: with `cap = max(1, int(0.07 * N))`, `N` the size of the coldkey side-table,
the coldkey filter admits, for every coldkey `c`, exactly the whole (attenuated)
group when it is at or under the cap, and exactly the top `cap` members by
attenuated confidence (stable descending sort) otherwise; in particular at most
`cap` responses per resolvable coldkey survive. -/
theorem C6_coldkey_cap (rs : List MinerResponse) (m : Metagraph)
    (cks : List String) (upd capped : List MinerResponse)
    (hck : m.coldkeys = some cks)
    (hcap : applyColdkeyConsensusCap rs m = .ok (upd, capped)) (c : String) :
    capped.filter (fun r => resolveColdkey cks r = some c) =
      capAdmit (capValue cks)
        (attenuateGroup (rs.filter (fun x => resolveColdkey cks x = some c))) ∧
    (capped.filter (fun r => resolveColdkey cks r = some c)).length ≤
      capValue cks := by
  by_cases hrs : rs = []
  · subst hrs
    unfold applyColdkeyConsensusCap at hcap
    rw [if_pos rfl] at hcap
    have hcapped : capped = [] := (Prod.ext_iff.mp (Except.ok.inj hcap)).2.symm
    subst hcapped
    constructor
    · simp [attenuateGroup, capAdmit]
    · simp
  · rw [applyColdkeyConsensusCap_some rs m cks hrs hck] at hcap
    have hcapped : capped = rs.filter (fun r => resolveColdkey cks r = none) ++
        (groupByFA (resolveColdkey cks) rs).flatMap
          (fun p => capAdmit (capValue cks) (attenuateGroup p.2)) :=
      (Prod.ext_iff.mp (Except.ok.inj hcap)).2.symm
    subst hcapped
    refine ⟨capped_filter_eq rs cks c, ?_⟩
    rw [capped_filter_eq rs cks c]
    exact capAdmit_length_le _ _

/-- Witness for C6 at the concrete C2 input (one coldkey owning both responses,
cap 1). -/
theorem C6_coldkey_cap_witness :
    ([c2respA].filter (fun r => resolveColdkey ["CK"] r = some "CK") =
      capAdmit (capValue ["CK"])
        (attenuateGroup (c2rs.filter
          (fun x => resolveColdkey ["CK"] x = some "CK")))) ∧
    (([c2respA].filter (fun r => resolveColdkey ["CK"] r = some "CK")).length ≤
      capValue ["CK"]) :=
  C6_coldkey_cap c2rs c2mg ["CK"] [c2respA, c2respA] [c2respA] rfl c2_cap_eval "CK"

/-- C7: the coordination detector returns 0 on every one-member group, and
exactly 1.0 on every group of n ≥ 2 identical copies of a single response. -/
theorem C7_coordination_idempotence :
    (∀ r : MinerResponse, detectResponseCoordination [r] = 0) ∧
    (∀ (r : MinerResponse) (n : Nat), 2 ≤ n →
      detectResponseCoordination (List.replicate n r) = 1) :=
  ⟨detect_single, fun r n hn => detect_replicate hn r⟩

/-- Witness for C7 at a concrete response and n = 2. -/
theorem C7_coordination_idempotence_witness :
    detectResponseCoordination [c5rT] = 0 ∧
    detectResponseCoordination (List.replicate 2 c5rT) = 1 :=
  ⟨C7_coordination_idempotence.1 c5rT,
    C7_coordination_idempotence.2 c5rT 2 (by norm_num)⟩

/-- C8: for every non-empty raw score map the normalized map sums to exactly 1
(in this real-number model the floating-point epsilon is 0), and when every raw
score is zero each of the k participants receives the uniform weight 1/k. -/
theorem C8_score_normalization (m : List (Nat × ℝ)) (hm : ¬ m = []) :
    ((normalizeScores m).map (fun p => p.2)).sum = 1 ∧
    ((∀ p ∈ m, p.2 = 0) →
      ∀ p ∈ normalizeScores m, p.2 = 1 / (m.length : ℝ)) :=
  ⟨normalizeScores_sum_one m hm, fun hz => normalizeScores_uniform m hm hz⟩

/-- Witness for C8 at a concrete all-zero two-entry map. -/
theorem C8_score_normalization_witness :
    ((normalizeScores [(0, (0 : ℝ)), (1, 0)]).map (fun p => p.2)).sum = 1 ∧
    ((∀ p ∈ [((0 : Nat), (0 : ℝ)), (1, 0)], p.2 = 0) →
      ∀ p ∈ normalizeScores [(0, (0 : ℝ)), (1, 0)],
        p.2 = 1 / (([((0 : Nat), (0 : ℝ)), (1, 0)].length : ℝ))) :=
  C8_score_normalization [(0, 0), (1, 0)] (by simp)

/-- C10: `calculate_consensus` preserves, positionally, every field of every input
response other than the confidence, and preserves the confidence of every response
that is not in a multi-member coldkey group; the only mutation point is the
confidence attenuation applied inside the coldkey-cap step. -/
theorem C10_response_mutation_frame (cfg : WeightsConfig) (st : Statement)
    (rs : List MinerResponse) (mg : Option Metagraph) (rng : Rng)
    (acc : List (Nat × List ℝ)) :
    ((calculateConsensus cfg st rs mg rng acc).responses).length = rs.length ∧
    ∀ i (h : i < rs.length)
      (h2 : i < ((calculateConsensus cfg st rs mg rng acc).responses).length),
      (((calculateConsensus cfg st rs mg rng acc).responses).get
          ⟨i, h2⟩).miner_uid = (rs.get ⟨i, h⟩).miner_uid ∧
      (((calculateConsensus cfg st rs mg rng acc).responses).get
          ⟨i, h2⟩).resolution = (rs.get ⟨i, h⟩).resolution ∧
      (((calculateConsensus cfg st rs mg rng acc).responses).get
          ⟨i, h2⟩).summary = (rs.get ⟨i, h⟩).summary ∧
      (((calculateConsensus cfg st rs mg rng acc).responses).get
          ⟨i, h2⟩).sources = (rs.get ⟨i, h⟩).sources ∧
      (¬ inMultiMemberColdkeyGroup rs mg (rs.get ⟨i, h⟩) →
        (((calculateConsensus cfg st rs mg rng acc).responses).get
          ⟨i, h2⟩).confidence = (rs.get ⟨i, h⟩).confidence) := by
  obtain ⟨F, hmap, hfields, hconf⟩ :=
    calculateConsensus_responses_map cfg st rs mg rng acc
  refine ⟨by rw [hmap, List.length_map], ?_⟩
  intro i h h2
  have hget : ((calculateConsensus cfg st rs mg rng acc).responses).get ⟨i, h2⟩ =
      if (rs.get ⟨i, h⟩).is_valid then F (rs.get ⟨i, h⟩) else rs.get ⟨i, h⟩ := by
    rw [get_congr_list hmap h2 (by
      rw [List.length_map]
      exact h)]
    rw [List.get_eq_getElem, List.getElem_map]
    rfl
  rw [hget]
  by_cases hval : (rs.get ⟨i, h⟩).is_valid
  · rw [if_pos hval]
    obtain ⟨hu, hr, hs, ho⟩ := hfields (rs.get ⟨i, h⟩)
    refine ⟨hu, hr, hs, ho, ?_⟩
    intro hmulti
    rw [hconf (rs.get ⟨i, h⟩) hval hmulti]
  · rw [if_neg hval]
    exact ⟨rfl, rfl, rfl, rfl, fun _ => rfl⟩

/-- Witness for C10 at a concrete single-response input with no metagraph. -/
theorem C10_response_mutation_frame_witness :
    ((calculateConsensus defaultConfig ⟨"s"⟩ [c5rT] none 0 []).responses).length =
      [c5rT].length ∧
    ((((calculateConsensus defaultConfig ⟨"s"⟩ [c5rT] none 0
        []).responses).get ⟨0, by
          rw [(C10_response_mutation_frame defaultConfig ⟨"s"⟩ [c5rT] none 0 []).1]
          norm_num⟩).confidence = ([c5rT].get ⟨0, by norm_num⟩).confidence) := by
  refine ⟨(C10_response_mutation_frame defaultConfig ⟨"s"⟩ [c5rT] none 0 []).1, ?_⟩
  refine ((C10_response_mutation_frame defaultConfig ⟨"s"⟩ [c5rT] none 0 []).2
    0 (by norm_num) (by
      rw [(C10_response_mutation_frame defaultConfig ⟨"s"⟩ [c5rT] none 0 []).1]
      norm_num)).2.2.2.2 ?_
  intro hm
  obtain ⟨_, m, cks, c, hmg, _⟩ := hm
  exact Option.noConfusion hmg

/-! C5: weighted consensus and its tie-break. -/

theorem c5_code_eval : calculateWeightedConsensus c5rs = some Resolution.FALSE := by
  have h1 : voteWeights c5rs =
      [(Resolution.FALSE, (0.5 : ℝ)), (Resolution.TRUE, 0.5)] := by
    unfold voteWeights c5rs
    rw [List.foldl_cons, List.foldl_cons, List.foldl_nil]
    have ha : addVote [] c5rF.resolution (c5rF.confidence / 100) =
        [(Resolution.FALSE, (0.5 : ℝ))] := by
      unfold addVote
      rw [if_neg (by simp)]
      show [] ++ [(c5rF.resolution, c5rF.confidence / 100)] = _
      unfold c5rF
      norm_num
    rw [ha]
    unfold addVote
    rw [if_neg (by
      unfold c5rT
      simp)]
    show [(Resolution.FALSE, (0.5 : ℝ))] ++
      [(c5rT.resolution, c5rT.confidence / 100)] = _
    unfold c5rT
    norm_num
  unfold calculateWeightedConsensus
  rw [h1]
  unfold pythonMaxBySnd
  rw [List.foldl_cons, List.foldl_cons, List.foldl_nil]
  show Option.map Prod.fst
    (if ((Resolution.FALSE, (0.5 : ℝ))).2 < ((Resolution.TRUE, (0.5 : ℝ))).2
     then some (Resolution.TRUE, (0.5 : ℝ)) else some (Resolution.FALSE, 0.5)) =
    some Resolution.FALSE
  rw [if_neg (by norm_num)]
  rfl

theorem c5_spec_eval : claimOrderedConsensus c5rs = some Resolution.TRUE := by
  unfold claimOrderedConsensus
  rw [if_neg (by simp [c5rs])]
  have hkeys : verdictDomainOrdered.filter
      (fun v => c5rs.any (fun r => r.resolution = v)) =
      [Resolution.TRUE, Resolution.FALSE] := by
    unfold verdictDomainOrdered c5rs c5rF c5rT
    simp
  rw [hkeys]
  have hwT : verdictWeight Resolution.TRUE c5rs = 0.5 := by
    unfold verdictWeight c5rs c5rF c5rT
    norm_num [List.filter_cons, List.filter_nil, List.sum_cons, List.sum_nil]
    rw [if_neg (by simp)]
    norm_num
  have hwF : verdictWeight Resolution.FALSE c5rs = 0.5 := by
    unfold verdictWeight c5rs c5rF c5rT
    norm_num [List.filter_cons, List.filter_nil, List.sum_cons, List.sum_nil]
    rw [if_neg (by simp)]
    norm_num
  rw [List.map_cons, List.map_cons, List.map_nil, hwT, hwF]
  unfold pythonMaxBySnd
  rw [List.foldl_cons, List.foldl_cons, List.foldl_nil]
  show Option.map Prod.fst
    (if ((Resolution.TRUE, (0.5 : ℝ))).2 < ((Resolution.FALSE, (0.5 : ℝ))).2
     then some (Resolution.FALSE, (0.5 : ℝ)) else some (Resolution.TRUE, 0.5)) =
    some Resolution.TRUE
  rw [if_neg (by norm_num)]
  rfl

/-- C5 counterexample: with survivors `[(FALSE, 50), (TRUE, 50)]` the vote is tied
at 0.5 each; the source returns the verdict that FIRST APPEARS in the survivor
list (FALSE, dict insertion order), not the first verdict in the fixed domain
order `TRUE < FALSE < PENDING` the claim asserts (TRUE). -/
theorem C5_tiebreak_counterexample :
    calculateWeightedConsensus c5rs = some Resolution.FALSE ∧
    claimOrderedConsensus c5rs = some Resolution.TRUE ∧
    ¬ calculateWeightedConsensus c5rs = claimOrderedConsensus c5rs := by
  refine ⟨c5_code_eval, c5_spec_eval, ?_⟩
  rw [c5_code_eval, c5_spec_eval]
  simp

/-- C5 amended: on a non-empty survivor list the weighted consensus is a verdict of
maximal accumulated weight `W[v] = Σ conf_i/100`, with ties broken deterministically
by the order in which verdicts FIRST APPEAR in the survivor list (the Python dict
insertion order), not by the fixed verdict-domain order; an empty survivor list
yields no consensus. -/
theorem C5_weighted_consensus_amended :
    calculateWeightedConsensus ([] : List MinerResponse) = none ∧
    ∀ rs : List MinerResponse, ¬ rs = [] →
      ∃ i, ∃ hi : i < (dedupFA (rs.map (fun r => r.resolution))).length,
        calculateWeightedConsensus rs =
          some ((dedupFA (rs.map (fun r => r.resolution))).get ⟨i, hi⟩) ∧
        (∀ j (hj : j < (dedupFA (rs.map (fun r => r.resolution))).length),
          verdictWeight ((dedupFA (rs.map (fun r => r.resolution))).get ⟨j, hj⟩)
              rs ≤
            verdictWeight ((dedupFA (rs.map (fun r => r.resolution))).get
              ⟨i, hi⟩) rs) ∧
        (∀ j (hj : j < (dedupFA (rs.map (fun r => r.resolution))).length), j < i →
          verdictWeight ((dedupFA (rs.map (fun r => r.resolution))).get ⟨j, hj⟩)
              rs <
            verdictWeight ((dedupFA (rs.map (fun r => r.resolution))).get
              ⟨i, hi⟩) rs) := by
  constructor
  · rfl
  · intro rs hrs
    have hks : ¬ dedupFA (rs.map (fun r => r.resolution)) = [] := by
      rw [dedupFA_eq_nil]
      intro h
      exact hrs (List.map_eq_nil_iff.mp h)
    have hvotes : ¬ voteWeights rs = [] := by
      rw [voteWeights_eq]
      intro h
      exact hks (List.map_eq_nil_iff.mp h)
    have hlen : (voteWeights rs).length =
        (dedupFA (rs.map (fun r => r.resolution))).length := by
      rw [voteWeights_eq, List.length_map]
    have hnth : ∀ j (hj : j < (voteWeights rs).length),
        (voteWeights rs).get ⟨j, hj⟩ =
          ((dedupFA (rs.map (fun r => r.resolution))).get ⟨j, hlen ▸ hj⟩,
            verdictWeight
              ((dedupFA (rs.map (fun r => r.resolution))).get ⟨j, hlen ▸ hj⟩)
              rs) := by
      intro j hj
      rw [get_congr_list (voteWeights_eq rs) hj (by
        rw [List.length_map]
        exact hlen ▸ hj)]
      rw [List.get_eq_getElem, List.getElem_map]
      rfl
    cases hb : pythonMaxBySnd (voteWeights rs) with
    | none => exact absurd (pythonMaxBySnd_eq_none.mp hb) hvotes
    | some b =>
      obtain ⟨i, hi, hget, hle, hlt⟩ := pythonMaxBySnd_spec (voteWeights rs) b hb
      have hb1 : b = ((dedupFA (rs.map (fun r => r.resolution))).get
          ⟨i, hlen ▸ hi⟩,
          verdictWeight ((dedupFA (rs.map (fun r => r.resolution))).get
            ⟨i, hlen ▸ hi⟩) rs) :=
        hget.symm.trans (hnth i hi)
      refine ⟨i, hlen ▸ hi, ?_, ?_, ?_⟩
      · unfold calculateWeightedConsensus
        rw [hb, hb1]
        rfl
      · intro j hj
        have := hle j (hlen.symm ▸ hj)
        rw [hnth j (hlen.symm ▸ hj), hb1] at this
        exact this
      · intro j hj hji
        have := hlt j (hlen.symm ▸ hj) hji
        rw [hnth j (hlen.symm ▸ hj), hb1] at this
        exact this

/-- Witness for the amended C5 at a concrete one-element survivor list. -/
theorem C5_weighted_consensus_amended_witness :
    ∃ i, ∃ hi : i < (dedupFA ([c5rT].map (fun r => r.resolution))).length,
      calculateWeightedConsensus [c5rT] =
        some ((dedupFA ([c5rT].map (fun r => r.resolution))).get ⟨i, hi⟩) ∧
      (∀ j (hj : j < (dedupFA ([c5rT].map (fun r => r.resolution))).length),
        verdictWeight ((dedupFA ([c5rT].map (fun r => r.resolution))).get
            ⟨j, hj⟩) [c5rT] ≤
          verdictWeight ((dedupFA ([c5rT].map (fun r => r.resolution))).get
            ⟨i, hi⟩) [c5rT]) ∧
      (∀ j (hj : j < (dedupFA ([c5rT].map (fun r => r.resolution))).length),
        j < i →
        verdictWeight ((dedupFA ([c5rT].map (fun r => r.resolution))).get
            ⟨j, hj⟩) [c5rT] <
          verdictWeight ((dedupFA ([c5rT].map (fun r => r.resolution))).get
            ⟨i, hi⟩) [c5rT]) :=
  C5_weighted_consensus_amended.2 [c5rT] (by simp)

/-! C9: pairwise mean similarity. -/

theorem c9_code_eval : calculateTextSimilarity ["", ""] = 1 := by
  unfold calculateTextSimilarity
  rw [if_neg (by norm_num)]
  have h : pairwiseSimilarities ["", ""] = [jaccardSimilarity "" ""] := rfl
  rw [h, jaccardSimilarity_self]
  norm_num

theorem c9_spec_eval : specPairwiseMeanSimilarity ["", ""] = 0 := by
  unfold specPairwiseMeanSimilarity
  rw [if_pos (by simp)]

/-- C9 counterexample: on two empty texts the source returns the mean of
`jaccard("", "") = 1.0`, i.e. 1.0, while the claim (fewer than two NON-EMPTY texts
supplied → 0.0) demands 0.0. -/
theorem C9_similarity_counterexample :
    calculateTextSimilarity ["", ""] = 1 ∧
    specPairwiseMeanSimilarity ["", ""] = 0 ∧
    ¬ calculateTextSimilarity ["", ""] = specPairwiseMeanSimilarity ["", ""] := by
  refine ⟨c9_code_eval, c9_spec_eval, ?_⟩
  rw [c9_code_eval, c9_spec_eval]
  norm_num

/-- C9 amended: `pairwise_mean_similarity` returns 0.0 whenever fewer than two
texts are supplied (counting empty texts, which the source does not exclude), and
otherwise returns the arithmetic mean of the Jaccard similarity over all
`n choose 2` unordered pairs of the supplied texts. -/
theorem C9_similarity_amended (texts : List String) :
    (texts.length < 2 → calculateTextSimilarity texts = 0) ∧
    (2 ≤ texts.length →
      (pairwiseSimilarities texts).length = texts.length.choose 2 ∧
      calculateTextSimilarity texts =
        (pairwiseSimilarities texts).sum / (texts.length.choose 2 : ℝ)) := by
  constructor
  · intro h
    unfold calculateTextSimilarity
    rw [if_pos h]
  · intro h
    have hlen := pairwiseSimilarities_length texts
    refine ⟨hlen, ?_⟩
    unfold calculateTextSimilarity
    rw [if_neg (by omega)]
    have hne : ¬ pairwiseSimilarities texts = [] := by
      intro hnil
      rw [hnil] at hlen
      have := Nat.choose_pos h
      simp only [List.length_nil] at hlen
      omega
    rw [if_neg hne, hlen]

/-- Witness for the amended C9 at the concrete two-empty-text input. -/
theorem C9_similarity_amended_witness :
    (pairwiseSimilarities ["", ""]).length = (["", ""].length).choose 2 ∧
    calculateTextSimilarity ["", ""] =
      (pairwiseSimilarities ["", ""]).sum / ((["", ""].length).choose 2 : ℝ) :=
  (C9_similarity_amended ["", ""]).2 (by simp)

/-! Concrete evaluation of the pipeline on the C4 input. -/

theorem detectCrossColdkeySimilarity_some (rs : List MinerResponse) (m : Metagraph)
    (cks : List String) (rng : Rng) (hck : m.coldkeys = some cks)
    (hany : rs.any (fun r => r.miner_uid.isNone) = false) :
    detectCrossColdkeySimilarity rs m rng =
      .ok ((groupByFA (crossKey cks) rs).foldl (fun acc p =>
        if 15 ≤ p.2.length then
          let chosen := sample p.2 (max 2 (p.2.length / 5)) acc.2
          (acc.1 ++ chosen.1, chosen.2)
        else (acc.1 ++ p.2, acc.2)) ([], rng)) := by
  unfold detectCrossColdkeySimilarity
  rw [hck]
  simp [hany]

theorem jaccard_eq_zero_of_disjoint (t1 t2 : String)
    (h : ((splitWs t1).toFinset ∩ (splitWs t2).toFinset).card = 0)
    (hne : ¬ ((splitWs t1).toFinset = ∅ ∧ (splitWs t2).toFinset = ∅)) :
    jaccardSimilarity t1 t2 = 0 := by
  unfold jaccardSimilarity
  rw [if_neg hne, h]
  dsimp only
  split <;> simp

theorem defaultConfig_eval : defaultConfig = ⟨0.4, 0.2, 0.3, 0.1⟩ := by
  unfold defaultConfig normalizeConfig
  rw [if_pos (by norm_num)]
  norm_num

theorem consistencyScore_no_high (r : MinerResponse) (all : List MinerResponse)
    (h2 : ¬ all.length < 2) (hc : ∀ x ∈ all, x.confidence ≤ 80) :
    calculateConsistencyScore r all = 1 := by
  unfold calculateConsistencyScore
  rw [if_neg h2]
  have hnil : all.filter (fun x => 80 < x.confidence ∧ ¬ x = r) = [] := by
    rw [List.filter_eq_nil_iff]
    intro a ha hcond
    exact absurd (of_decide_eq_true hcond).1 (not_lt.mpr (hc a ha))
  rw [hnil, if_pos rfl]

theorem c4_resolve0 : resolveColdkey c4cks c4r0 = some "A" := by decide

theorem c4_resolve1 : resolveColdkey c4cks c4r1 = some "A" := by decide

theorem c4_resolve2 : resolveColdkey c4cks c4r2 = some "A" := by decide

theorem c4_filter_group :
    c4rs.filter (fun x => resolveColdkey c4cks x = some "A") = c4rs := by
  show [c4r0, c4r1, c4r2].filter (fun x => resolveColdkey c4cks x = some "A") = c4rs
  simp only [List.filter_cons, List.filter_nil]
  rw [if_pos (by decide), if_pos (by decide), if_pos (by decide)]
  rfl

theorem c4_groups : groupByFA (resolveColdkey c4cks) c4rs = [("A", c4rs)] := by
  rw [groupByFA_eq]
  have h1 : c4rs.filterMap (resolveColdkey c4cks) = ["A", "A", "A"] := by decide
  rw [h1]
  have h2 : dedupFA ["A", "A", "A"] = ["A"] := by decide
  rw [h2, List.map_cons, List.map_nil, c4_filter_group]

theorem c4_text_sim :
    calculateTextSimilarity ["aw bw", "cw dw", "ew fw"] = 0 := by
  have hj01 : jaccardSimilarity "aw bw" "cw dw" = 0 :=
    jaccard_eq_zero_of_disjoint _ _ (by decide) (by decide)
  have hj02 : jaccardSimilarity "aw bw" "ew fw" = 0 :=
    jaccard_eq_zero_of_disjoint _ _ (by decide) (by decide)
  have hj12 : jaccardSimilarity "cw dw" "ew fw" = 0 :=
    jaccard_eq_zero_of_disjoint _ _ (by decide) (by decide)
  have hsims : pairwiseSimilarities ["aw bw", "cw dw", "ew fw"] =
      [(0 : ℝ), 0, 0] := by
    simp only [pairwiseSimilarities, List.map_cons, List.map_nil]
    rw [hj01, hj02, hj12]
    rfl
  unfold calculateTextSimilarity
  rw [if_neg (by norm_num), hsims]
  norm_num

theorem c4_detect : detectResponseCoordination c4rs = 0 := by
  have hmap_conf : c4rs.map (fun r => r.confidence) = [90, 80, 10] := rfl
  have hvar : listVariance [(90 : ℝ), 80, 10] = 3800 / 3 := by
    have hmean : listMean [(90 : ℝ), 80, 10] = 60 := by
      unfold listMean
      norm_num
    unfold listVariance
    rw [hmean]
    norm_num
  have hmap_sum : c4rs.map (fun r => strLower r.summary) =
      ["aw bw", "cw dw", "ew fw"] := by decide
  have hfilter_agree : c4rs.filter
      (fun r => r.resolution = c4rs.headI.resolution) = [c4r0, c4r1] := by
    show [c4r0, c4r1, c4r2].filter
      (fun r => r.resolution = c4rs.headI.resolution) = [c4r0, c4r1]
    simp only [List.filter_cons, List.filter_nil]
    rw [if_pos (by decide), if_pos (by decide), if_neg (by decide)]
  simp only [detectResponseCoordination]
  rw [if_neg (by decide)]
  rw [hfilter_agree, hmap_conf, hvar, hmap_sum, c4_text_sim]
  rw [if_neg (by
    show ¬ (0.9 : ℝ) ≤ ([c4r0, c4r1].length : ℝ) / (c4rs.length : ℝ)
    show ¬ (0.9 : ℝ) ≤ (2 : ℕ) / ((3 : ℕ) : ℝ)
    norm_num)]
  rw [if_neg (by
    rw [Real.sqrt_lt' (show (0 : ℝ) < 5 by norm_num)]
    norm_num)]
  rw [if_neg (by norm_num)]
  norm_num

theorem c4_update_id (r : MinerResponse) (hr : r ∈ c4rs) :
    capUpdateResponse c4rs c4cks r = r := by
  have hres : resolveColdkey c4cks r = some "A" := by
    rcases List.mem_cons.mp hr with rfl | hr2
    · exact c4_resolve0
    rcases List.mem_cons.mp hr2 with rfl | hr3
    · exact c4_resolve1
    rcases List.mem_cons.mp hr3 with rfl | hr4
    · exact c4_resolve2
    · exact absurd hr4 (List.not_mem_nil r)
  unfold capUpdateResponse
  rw [hres]
  simp only []
  rw [c4_filter_group]
  rw [if_neg (by
    rw [c4_detect]
    intro hcond
    exact lt_irrefl 0 hcond.2)]

theorem c4_capValue : capValue c4cks = 1 := by decide

theorem c4_sort : sortByConfidenceDesc c4rs = c4rs := by
  show insertDesc c4r0 (insertDesc c4r1 (insertDesc c4r2 [])) = c4rs
  have h2 : insertDesc c4r2 [] = [c4r2] := rfl
  rw [h2]
  have h1 : insertDesc c4r1 [c4r2] = [c4r1, c4r2] := by
    unfold insertDesc
    rw [if_pos (by
      show c4r2.confidence ≤ c4r1.confidence
      unfold c4r1 c4r2
      norm_num)]
  rw [h1]
  unfold insertDesc
  rw [if_pos (by
    show c4r1.confidence ≤ c4r0.confidence
    unfold c4r0 c4r1
    norm_num)]
  rfl

theorem c4_cap_eval :
    applyColdkeyConsensusCap c4rs c4mg = .ok (c4rs, [c4r0]) := by
  rw [applyColdkeyConsensusCap_some c4rs c4mg c4cks (by simp [c4rs]) rfl]
  refine congrArg Except.ok (Prod.ext ?_ ?_)
  · show c4rs.map (capUpdateResponse c4rs c4cks) = c4rs
    show [capUpdateResponse c4rs c4cks c4r0, capUpdateResponse c4rs c4cks c4r1,
      capUpdateResponse c4rs c4cks c4r2] = c4rs
    rw [c4_update_id c4r0 (by simp [c4rs]), c4_update_id c4r1 (by simp [c4rs]),
      c4_update_id c4r2 (by simp [c4rs])]
    rfl
  · have hbp : c4rs.filter (fun r => resolveColdkey c4cks r = none) = [] := by
      show [c4r0, c4r1, c4r2].filter (fun r => resolveColdkey c4cks r = none) = []
      simp only [List.filter_cons, List.filter_nil]
      rw [if_neg (by decide), if_neg (by decide), if_neg (by decide)]
    have hatt : attenuateGroup c4rs = c4rs := by
      unfold attenuateGroup
      rw [if_neg (by
        rw [c4_detect]
        intro hcond
        exact lt_irrefl 0 hcond.2)]
    show c4rs.filter (fun r => resolveColdkey c4cks r = none) ++
      (groupByFA (resolveColdkey c4cks) c4rs).flatMap
        (fun p => capAdmit (capValue c4cks) (attenuateGroup p.2)) = [c4r0]
    rw [hbp, List.nil_append, c4_groups, List.flatMap_cons, List.flatMap_nil,
      List.append_nil]
    show capAdmit (capValue c4cks) (attenuateGroup c4rs) = [c4r0]
    rw [hatt, c4_capValue]
    unfold capAdmit
    rw [if_neg (by simp [c4rs])]
    rw [c4_sort]
    rfl

theorem c4_cross_eval :
    detectCrossColdkeySimilarity [c4r0] c4mg 0 = .ok ([c4r0], 0) := by
  rw [detectCrossColdkeySimilarity_some [c4r0] c4mg c4cks 0 rfl (by decide)]
  have hg : groupByFA (crossKey c4cks) [c4r0] = [("A", [c4r0])] := by
    rw [groupByFA_eq]
    have h1 : [c4r0].filterMap (crossKey c4cks) = ["A"] := by decide
    rw [h1]
    have h2 : dedupFA ["A"] = ["A"] := by decide
    rw [h2, List.map_cons, List.map_nil]
    have h3 : [c4r0].filter (fun x => crossKey c4cks x = some "A") = [c4r0] := by
      rw [List.filter_cons, List.filter_nil]
      rw [if_pos (by decide)]
    rw [h3]
  rw [hg, List.foldl_cons, List.foldl_nil]
  rw [if_neg (by norm_num)]
  rfl

theorem c4_votes : calculateWeightedConsensus [c4r0] = some Resolution.TRUE := by
  unfold calculateWeightedConsensus voteWeights
  rw [List.foldl_cons, List.foldl_nil]
  have h : addVote [] c4r0.resolution (c4r0.confidence / 100) =
      [(Resolution.TRUE, (0.9 : ℝ))] := by
    unfold addVote
    rw [if_neg (by simp)]
    show [] ++ [(c4r0.resolution, c4r0.confidence / 100)] = _
    unfold c4r0
    norm_num
  rw [h]
  rfl

theorem c4_inner_eval : calculateConsensusAux c4rs (some c4mg) 0 =
    ⟨c4rs, [c4r0], some Resolution.TRUE, 0⟩ := by
  rw [calculateConsensusAux_cap_cross c4rs c4mg 0 c4rs [c4r0] [c4r0] 0
    (by simp [c4rs]) c4_cap_eval c4_cross_eval, c4_votes]

theorem c4_valid_filter : c4rs.filter (fun r => r.is_valid) = c4rs := by
  rw [List.filter_eq_self]
  intro a ha
  refine decide_eq_true ?_
  rcases List.mem_cons.mp ha with rfl | ha2
  · exact ⟨rfl, by norm_num [c4r0], by norm_num [c4r0]⟩
  rcases List.mem_cons.mp ha2 with rfl | ha3
  · exact ⟨rfl, by norm_num [c4r1], by norm_num [c4r1]⟩
  rcases List.mem_cons.mp ha3 with rfl | ha4
  · exact ⟨rfl, by norm_num [c4r2], by norm_num [c4r2]⟩
  · exact absurd ha4 (List.not_mem_nil a)

/-- C4 counterexample: on the concrete C4 input the consensus is TRUE and the
returned consensus_confidence is 85, the mean over ALL valid responses with
verdict TRUE (confidences 90 and 80), while the mean over the filter-chain
SURVIVORS with verdict TRUE (only the top-capped response, confidence 90) is 90:
the code averages over the valid responses, not over the survivors the claim
names. -/
theorem C4_consensus_confidence_counterexample :
    (calculateConsensus defaultConfig ⟨"s"⟩ c4rs (some c4mg) 0
      []).result.consensus_confidence = 85 ∧
    (calculateConsensusAux (c4rs.filter (fun r => r.is_valid)) (some c4mg)
      0).survivors = [c4r0] ∧
    ((((calculateConsensusAux (c4rs.filter (fun r => r.is_valid)) (some c4mg)
        0).survivors.filter (fun r => some r.resolution =
          (calculateConsensusAux (c4rs.filter (fun r => r.is_valid)) (some c4mg)
            0).consensus)).map (fun r => r.confidence)).sum /
      (((calculateConsensusAux (c4rs.filter (fun r => r.is_valid)) (some c4mg)
        0).survivors.filter (fun r => some r.resolution =
          (calculateConsensusAux (c4rs.filter (fun r => r.is_valid)) (some c4mg)
            0).consensus)).length : ℝ)) = 90 ∧
    ¬ ((85 : ℝ) = 90) := by
  have hcr : c4rs.filter (fun r => some r.resolution = some Resolution.TRUE) =
      [c4r0, c4r1] := by
    show [c4r0, c4r1, c4r2].filter
      (fun r => some r.resolution = some Resolution.TRUE) = [c4r0, c4r1]
    simp only [List.filter_cons, List.filter_nil]
    rw [if_pos (by decide), if_pos (by decide), if_neg (by decide)]
  refine ⟨?_, ?_, ?_, by norm_num⟩
  · rw [calculateConsensus_confidence_eq defaultConfig ⟨"s"⟩ c4rs (some c4mg) 0 []
      (by simp [c4rs])]
    rw [c4_valid_filter, c4_inner_eval]
    show (if ([c4r0, c4r1, c4r2].filter
        (fun r => some r.resolution = some Resolution.TRUE)) = [] then (0 : ℝ)
      else _) = 85
    rw [show [c4r0, c4r1, c4r2] = c4rs from rfl, hcr]
    rw [if_neg (by simp)]
    show (([c4r0, c4r1].map (fun r => r.confidence)).sum /
      (([c4r0, c4r1] : List MinerResponse).length : ℝ)) = 85
    unfold c4r0 c4r1
    norm_num
  · rw [c4_valid_filter, c4_inner_eval]
  · rw [c4_valid_filter, c4_inner_eval]
    show ((([c4r0].filter (fun r => some r.resolution = some Resolution.TRUE)).map
        (fun r => r.confidence)).sum /
      (([c4r0].filter (fun r => some r.resolution =
        some Resolution.TRUE)).length : ℝ)) = 90
    rw [List.filter_cons, List.filter_nil, if_pos (by decide)]
    unfold c4r0
    norm_num

/-- C4 amended: the returned consensus_confidence equals the arithmetic mean of the
post-coldkey-attenuation confidences of ALL VALID responses (not just the
filter-chain survivors) whose verdict equals the consensus, and 0 if none. -/
theorem C4_consensus_confidence_amended (cfg : WeightsConfig) (st : Statement)
    (rs : List MinerResponse) (mg : Option Metagraph) (rng : Rng)
    (acc : List (Nat × List ℝ)) (hrs : ¬ rs = []) :
    (calculateConsensus cfg st rs mg rng acc).result.consensus_confidence =
      (if ((calculateConsensusAux (rs.filter (fun r => r.is_valid)) mg
            rng).updated.filter (fun r => some r.resolution =
            (calculateConsensusAux (rs.filter (fun r => r.is_valid)) mg
              rng).consensus)) = [] then (0 : ℝ)
       else (((calculateConsensusAux (rs.filter (fun r => r.is_valid)) mg
            rng).updated.filter (fun r => some r.resolution =
            (calculateConsensusAux (rs.filter (fun r => r.is_valid)) mg
              rng).consensus)).map (fun r => r.confidence)).sum /
          (((calculateConsensusAux (rs.filter (fun r => r.is_valid)) mg
            rng).updated.filter (fun r => some r.resolution =
            (calculateConsensusAux (rs.filter (fun r => r.is_valid)) mg
              rng).consensus)).length : ℝ)) :=
  calculateConsensus_confidence_eq cfg st rs mg rng acc hrs

/-- Witness for the amended C4 at the concrete counterexample input. -/
theorem C4_consensus_confidence_amended_witness :
    (calculateConsensus defaultConfig ⟨"s"⟩ c4rs (some c4mg) 0
      []).result.consensus_confidence =
      (if ((calculateConsensusAux (c4rs.filter (fun r => r.is_valid)) (some c4mg)
            0).updated.filter (fun r => some r.resolution =
            (calculateConsensusAux (c4rs.filter (fun r => r.is_valid)) (some c4mg)
              0).consensus)) = [] then (0 : ℝ)
       else (((calculateConsensusAux (c4rs.filter (fun r => r.is_valid))
            (some c4mg) 0).updated.filter (fun r => some r.resolution =
            (calculateConsensusAux (c4rs.filter (fun r => r.is_valid)) (some c4mg)
              0).consensus)).map (fun r => r.confidence)).sum /
          (((calculateConsensusAux (c4rs.filter (fun r => r.is_valid))
            (some c4mg) 0).updated.filter (fun r => some r.resolution =
            (calculateConsensusAux (c4rs.filter (fun r => r.is_valid)) (some c4mg)
              0).consensus)).length : ℝ)) :=
  C4_consensus_confidence_amended defaultConfig ⟨"s"⟩ c4rs (some c4mg) 0 []
    (by simp [c4rs])

/-! Concrete evaluation of the pipeline on the C3 input, round 1. -/

theorem c3_resolve0 : resolveColdkey c3cks c3r0 = some "A" := by decide

theorem c3_resolve1 : resolveColdkey c3cks c3r1 = some "A" := by decide

theorem c3_resolve2 : resolveColdkey c3cks c3r2 = some "B" := by decide

theorem c3_filter_groupA :
    c3rs.filter (fun x => resolveColdkey c3cks x = some "A") = [c3r0, c3r1] := by
  show [c3r0, c3r1, c3r2].filter (fun x => resolveColdkey c3cks x = some "A") = _
  simp only [List.filter_cons, List.filter_nil]
  rw [if_pos (by decide), if_pos (by decide), if_neg (by decide)]

theorem c3_filter_groupB :
    c3rs.filter (fun x => resolveColdkey c3cks x = some "B") = [c3r2] := by
  show [c3r0, c3r1, c3r2].filter (fun x => resolveColdkey c3cks x = some "B") = _
  simp only [List.filter_cons, List.filter_nil]
  rw [if_neg (by decide), if_neg (by decide), if_pos (by decide)]

theorem c3_groups : groupByFA (resolveColdkey c3cks) c3rs =
    [("A", [c3r0, c3r1]), ("B", [c3r2])] := by
  rw [groupByFA_eq]
  have h1 : c3rs.filterMap (resolveColdkey c3cks) = ["A", "A", "B"] := by decide
  rw [h1]
  have h2 : dedupFA ["A", "A", "B"] = ["A", "B"] := by decide
  rw [h2, List.map_cons, List.map_cons, List.map_nil, c3_filter_groupA,
    c3_filter_groupB]

theorem c3_text_sim : calculateTextSimilarity ["pw qw", "rw sw"] = 0 := by
  have hj : jaccardSimilarity "pw qw" "rw sw" = 0 :=
    jaccard_eq_zero_of_disjoint _ _ (by decide) (by decide)
  have hsims : pairwiseSimilarities ["pw qw", "rw sw"] = [(0 : ℝ)] := by
    simp only [pairwiseSimilarities, List.map_cons, List.map_nil]
    rw [hj]
    rfl
  unfold calculateTextSimilarity
  rw [if_neg (by norm_num), hsims]
  norm_num

theorem c3_detectA : detectResponseCoordination [c3r0, c3r1] = 0.64 := by
  have hmap_conf : [c3r0, c3r1].map (fun r => r.confidence) = [90, 92] := rfl
  have hvar : listVariance [(90 : ℝ), 92] = 1 := by
    have hmean : listMean [(90 : ℝ), 92] = 91 := by
      unfold listMean
      norm_num
    unfold listVariance
    rw [hmean]
    norm_num
  have hmap_sum : [c3r0, c3r1].map (fun r => strLower r.summary) =
      ["pw qw", "rw sw"] := by decide
  have hfilter_agree : [c3r0, c3r1].filter
      (fun r => r.resolution = ([c3r0, c3r1] : List MinerResponse).headI.resolution) =
      [c3r0, c3r1] := by
    simp only [List.filter_cons, List.filter_nil]
    rw [if_pos (by decide), if_pos (by decide)]
  simp only [detectResponseCoordination]
  rw [if_neg (by decide)]
  rw [hfilter_agree, hmap_conf, hvar, hmap_sum, c3_text_sim, Real.sqrt_one]
  rw [if_pos (by
    show (0.9 : ℝ) ≤ (([c3r0, c3r1] : List MinerResponse).length : ℝ) /
      (([c3r0, c3r1] : List MinerResponse).length : ℝ)
    show (0.9 : ℝ) ≤ ((2 : ℕ) : ℝ) / ((2 : ℕ) : ℝ)
    norm_num)]
  rw [if_pos (by norm_num : (1 : ℝ) < 5)]
  rw [if_neg (by norm_num : ¬ (0.7 : ℝ) < 0)]
  simp only [List.sum_append, List.sum_cons, List.sum_nil, List.length_cons,
    List.length_nil]
  norm_num [min_def]

theorem c3_attenuate0 : attenuate 0.64 c3r0 = c3r0a := by
  unfold attenuate c3r0 c3r0a
  congr 1
  norm_num

theorem c3_attenuate1 : attenuate 0.64 c3r1 = c3r1a := by
  unfold attenuate c3r1 c3r1a
  congr 1
  norm_num

theorem c3_condA : 1 < ([c3r0, c3r1] : List MinerResponse).length ∧
    0 < detectResponseCoordination [c3r0, c3r1] := by
  refine ⟨by norm_num, ?_⟩
  rw [c3_detectA]
  norm_num

theorem c3_update0 : capUpdateResponse c3rs c3cks c3r0 = c3r0a := by
  unfold capUpdateResponse
  rw [c3_resolve0]
  simp only []
  rw [c3_filter_groupA, if_pos c3_condA, c3_detectA, c3_attenuate0]

theorem c3_update1 : capUpdateResponse c3rs c3cks c3r1 = c3r1a := by
  unfold capUpdateResponse
  rw [c3_resolve1]
  simp only []
  rw [c3_filter_groupA, if_pos c3_condA, c3_detectA, c3_attenuate1]

theorem c3_update2 : capUpdateResponse c3rs c3cks c3r2 = c3r2 := by
  unfold capUpdateResponse
  rw [c3_resolve2]
  simp only []
  rw [c3_filter_groupB, if_neg (by
    intro hcond
    exact absurd hcond.1 (by norm_num))]

theorem c3_attGroupA : attenuateGroup [c3r0, c3r1] = [c3r0a, c3r1a] := by
  unfold attenuateGroup
  rw [if_pos c3_condA, c3_detectA]
  show [attenuate 0.64 c3r0, attenuate 0.64 c3r1] = _
  rw [c3_attenuate0, c3_attenuate1]

theorem c3_attGroupB : attenuateGroup [c3r2] = [c3r2] := by
  unfold attenuateGroup
  rw [if_neg (by
    intro hcond
    exact absurd hcond.1 (by norm_num))]

theorem c3_capValue : capValue c3cks = 2 := by decide

theorem c3_cap_eval : applyColdkeyConsensusCap c3rs c3mg =
    .ok ([c3r0a, c3r1a, c3r2], [c3r0a, c3r1a, c3r2]) := by
  rw [applyColdkeyConsensusCap_some c3rs c3mg c3cks (by simp [c3rs]) rfl]
  refine congrArg Except.ok (Prod.ext ?_ ?_)
  · show [capUpdateResponse c3rs c3cks c3r0, capUpdateResponse c3rs c3cks c3r1,
      capUpdateResponse c3rs c3cks c3r2] = [c3r0a, c3r1a, c3r2]
    rw [c3_update0, c3_update1, c3_update2]
  · have hbp : c3rs.filter (fun r => resolveColdkey c3cks r = none) = [] := by
      show [c3r0, c3r1, c3r2].filter (fun r => resolveColdkey c3cks r = none) = []
      simp only [List.filter_cons, List.filter_nil]
      rw [if_neg (by decide), if_neg (by decide), if_neg (by decide)]
    show c3rs.filter (fun r => resolveColdkey c3cks r = none) ++
      (groupByFA (resolveColdkey c3cks) c3rs).flatMap
        (fun p => capAdmit (capValue c3cks) (attenuateGroup p.2)) =
      [c3r0a, c3r1a, c3r2]
    rw [hbp, List.nil_append, c3_groups, List.flatMap_cons, List.flatMap_cons,
      List.flatMap_nil, List.append_nil]
    show capAdmit (capValue c3cks) (attenuateGroup [c3r0, c3r1]) ++
      capAdmit (capValue c3cks) (attenuateGroup [c3r2]) = [c3r0a, c3r1a, c3r2]
    rw [c3_attGroupA, c3_attGroupB, c3_capValue]
    have h1 : capAdmit 2 [c3r0a, c3r1a] = [c3r0a, c3r1a] := by
      unfold capAdmit
      rw [if_pos (by norm_num)]
    have h2 : capAdmit 2 [c3r2] = [c3r2] := by
      unfold capAdmit
      rw [if_pos (by norm_num)]
    rw [h1, h2]
    rfl

theorem c3_cross_eval : detectCrossColdkeySimilarity [c3r0a, c3r1a, c3r2] c3mg 0 =
    .ok ([c3r0a, c3r1a, c3r2], 0) := by
  rw [detectCrossColdkeySimilarity_some [c3r0a, c3r1a, c3r2] c3mg c3cks 0 rfl
    (by decide)]
  have hg : groupByFA (crossKey c3cks) [c3r0a, c3r1a, c3r2] =
      [("A", [c3r0a, c3r1a]), ("B", [c3r2])] := by
    rw [groupByFA_eq]
    have h1 : [c3r0a, c3r1a, c3r2].filterMap (crossKey c3cks) =
        ["A", "A", "B"] := by decide
    rw [h1]
    have h2 : dedupFA ["A", "A", "B"] = ["A", "B"] := by decide
    rw [h2, List.map_cons, List.map_cons, List.map_nil]
    have h3 : [c3r0a, c3r1a, c3r2].filter
        (fun x => crossKey c3cks x = some "A") = [c3r0a, c3r1a] := by
      simp only [List.filter_cons, List.filter_nil]
      rw [if_pos (by decide), if_pos (by decide), if_neg (by decide)]
    have h4 : [c3r0a, c3r1a, c3r2].filter
        (fun x => crossKey c3cks x = some "B") = [c3r2] := by
      simp only [List.filter_cons, List.filter_nil]
      rw [if_neg (by decide), if_neg (by decide), if_pos (by decide)]
    rw [h3, h4]
  rw [hg, List.foldl_cons, List.foldl_cons, List.foldl_nil]
  rw [if_neg (by norm_num)]
  rw [if_neg (by norm_num)]
  rfl

theorem c3_votes1 :
    calculateWeightedConsensus [c3r0a, c3r1a, c3r2] = some Resolution.TRUE := by
  have h1 : voteWeights [c3r0a, c3r1a, c3r2] =
      [(Resolution.TRUE, (0.6552 : ℝ)), (Resolution.FALSE, 0.6)] := by
    unfold voteWeights
    rw [List.foldl_cons, List.foldl_cons, List.foldl_cons, List.foldl_nil]
    have ha : addVote [] c3r0a.resolution (c3r0a.confidence / 100) =
        [(Resolution.TRUE, (0.324 : ℝ))] := by
      unfold addVote
      rw [if_neg (by simp)]
      show [] ++ [(c3r0a.resolution, c3r0a.confidence / 100)] = _
      unfold c3r0a
      norm_num
    rw [ha]
    have hb : addVote [(Resolution.TRUE, (0.324 : ℝ))] c3r1a.resolution
        (c3r1a.confidence / 100) = [(Resolution.TRUE, (0.6552 : ℝ))] := by
      unfold addVote
      rw [if_pos (by
        show c3r1a.resolution ∈ [(Resolution.TRUE, (0.324 : ℝ))].map Prod.fst
        unfold c3r1a
        simp)]
      show [if (Resolution.TRUE, (0.324 : ℝ)).1 = c3r1a.resolution then
        ((Resolution.TRUE, (0.324 : ℝ)).1,
          (Resolution.TRUE, (0.324 : ℝ)).2 + c3r1a.confidence / 100)
        else (Resolution.TRUE, (0.324 : ℝ))] = _
      rw [if_pos (by decide)]
      unfold c3r1a
      norm_num
    rw [hb]
    unfold addVote
    rw [if_neg (by
      show ¬ c3r2.resolution ∈ [(Resolution.TRUE, (0.6552 : ℝ))].map Prod.fst
      unfold c3r2
      simp)]
    show [(Resolution.TRUE, (0.6552 : ℝ))] ++
      [(c3r2.resolution, c3r2.confidence / 100)] = _
    unfold c3r2
    norm_num
  unfold calculateWeightedConsensus
  rw [h1]
  unfold pythonMaxBySnd
  rw [List.foldl_cons, List.foldl_cons, List.foldl_nil]
  show Option.map Prod.fst
    (if ((Resolution.TRUE, (0.6552 : ℝ))).2 < ((Resolution.FALSE, (0.6 : ℝ))).2
     then some (Resolution.FALSE, (0.6 : ℝ))
     else some (Resolution.TRUE, 0.6552)) = some Resolution.TRUE
  rw [if_neg (by norm_num)]
  rfl

theorem c3_inner1 : calculateConsensusAux c3rs (some c3mg) 0 =
    ⟨[c3r0a, c3r1a, c3r2], [c3r0a, c3r1a, c3r2], some Resolution.TRUE, 0⟩ := by
  rw [calculateConsensusAux_cap_cross c3rs c3mg 0 [c3r0a, c3r1a, c3r2]
    [c3r0a, c3r1a, c3r2] [c3r0a, c3r1a, c3r2] 0 (by simp [c3rs]) c3_cap_eval
    c3_cross_eval, c3_votes1]

/-! Generic evaluation helpers for the scoring pass. -/

theorem mergeValid_cons_valid (r : MinerResponse) (rest : List MinerResponse)
    (u : MinerResponse) (us : List MinerResponse) (h : r.is_valid) :
    mergeValid (r :: rest) (u :: us) = u :: mergeValid rest us := by
  show (if r.is_valid then u :: mergeValid rest us
    else r :: mergeValid rest (u :: us)) = u :: mergeValid rest us
  rw [if_pos h]

theorem dictInsert_new (m : List (Nat × ℝ)) (k : Nat) (v : ℝ)
    (h : ¬ k ∈ m.map Prod.fst) : dictInsert m k v = m ++ [(k, v)] := by
  unfold dictInsert
  rw [if_neg h]

theorem calculateScores_scores (cfg : WeightsConfig) (st : Statement)
    (responses : List MinerResponse) (mg : Option Metagraph) (rng : Rng)
    (h : ¬ responses = []) :
    (calculateScores cfg st responses none mg rng).scores =
      normalizeScores ((calculateConsensusAux responses mg rng).updated.foldl
        (fun m r => match r.miner_uid with
          | some uid => dictInsert m uid (scoreResponse cfg r
              (calculateConsensusAux responses mg rng).consensus
              (calculateConsensusAux responses mg rng).updated)
          | none => m) []) := by
  unfold calculateScores
  rw [if_neg h]

theorem sourceScore_of_no_sources (r : MinerResponse) (h : r.sources = []) :
    calculateSourceScore r = 0 := by
  unfold calculateSourceScore
  rw [if_pos h]

/-! Concrete evaluation of the pipeline on the C3 input, round 2: the scoring pass
recomputes the consensus on the already-attenuated responses, attenuating them a
second time, and the verdict flips from TRUE to FALSE. -/

theorem c3_filter_groupA2 :
    [c3r0a, c3r1a, c3r2].filter (fun x => resolveColdkey c3cks x = some "A") =
      [c3r0a, c3r1a] := by
  simp only [List.filter_cons, List.filter_nil]
  rw [if_pos (by decide), if_pos (by decide), if_neg (by decide)]

theorem c3_filter_groupB2 :
    [c3r0a, c3r1a, c3r2].filter (fun x => resolveColdkey c3cks x = some "B") =
      [c3r2] := by
  simp only [List.filter_cons, List.filter_nil]
  rw [if_neg (by decide), if_neg (by decide), if_pos (by decide)]

theorem c3_groups2 : groupByFA (resolveColdkey c3cks) [c3r0a, c3r1a, c3r2] =
    [("A", [c3r0a, c3r1a]), ("B", [c3r2])] := by
  rw [groupByFA_eq]
  have h1 : [c3r0a, c3r1a, c3r2].filterMap (resolveColdkey c3cks) =
      ["A", "A", "B"] := by decide
  rw [h1]
  have h2 : dedupFA ["A", "A", "B"] = ["A", "B"] := by decide
  rw [h2, List.map_cons, List.map_cons, List.map_nil, c3_filter_groupA2,
    c3_filter_groupB2]

theorem c3_detectA2 : detectResponseCoordination [c3r0a, c3r1a] = 0.6784 := by
  have hmap_conf : [c3r0a, c3r1a].map (fun r => r.confidence) = [32.4, 33.12] := rfl
  have hvar : listVariance [(32.4 : ℝ), 33.12] = 0.1296 := by
    have hmean : listMean [(32.4 : ℝ), 33.12] = 32.76 := by
      unfold listMean
      norm_num
    unfold listVariance
    rw [hmean]
    norm_num
  have hstd : Real.sqrt 0.1296 = 0.36 := by
    rw [show (0.1296 : ℝ) = 0.36 ^ 2 by norm_num]
    exact Real.sqrt_sq (by norm_num)
  have hmap_sum : [c3r0a, c3r1a].map (fun r => strLower r.summary) =
      ["pw qw", "rw sw"] := by decide
  have hfilter_agree : [c3r0a, c3r1a].filter
      (fun r => r.resolution = ([c3r0a, c3r1a] : List MinerResponse).headI.resolution) =
      [c3r0a, c3r1a] := by
    simp only [List.filter_cons, List.filter_nil]
    rw [if_pos (by decide), if_pos (by decide)]
  simp only [detectResponseCoordination]
  rw [if_neg (by decide)]
  rw [hfilter_agree, hmap_conf, hvar, hmap_sum, c3_text_sim, hstd]
  rw [if_pos (by
    show (0.9 : ℝ) ≤ (([c3r0a, c3r1a] : List MinerResponse).length : ℝ) /
      (([c3r0a, c3r1a] : List MinerResponse).length : ℝ)
    show (0.9 : ℝ) ≤ ((2 : ℕ) : ℝ) / ((2 : ℕ) : ℝ)
    norm_num)]
  rw [if_pos (by norm_num : (0.36 : ℝ) < 5)]
  rw [if_neg (by norm_num : ¬ (0.7 : ℝ) < 0)]
  simp only [List.sum_append, List.sum_cons, List.sum_nil, List.length_cons,
    List.length_nil]
  norm_num [min_def]

theorem c3_attenuate0b : attenuate 0.6784 c3r0a = c3r0b := by
  unfold attenuate c3r0a c3r0b
  congr 1
  rw [show (32.4 : ℝ) * (1 - 0.6784) = 10.41984 by norm_num]
  exact max_eq_left (by norm_num)

theorem c3_attenuate1b : attenuate 0.6784 c3r1a = c3r1b := by
  unfold attenuate c3r1a c3r1b
  congr 1
  rw [show (33.12 : ℝ) * (1 - 0.6784) = 10.651392 by norm_num]
  exact max_eq_left (by norm_num)

theorem c3_condA2 : 1 < ([c3r0a, c3r1a] : List MinerResponse).length ∧
    0 < detectResponseCoordination [c3r0a, c3r1a] := by
  refine ⟨by norm_num, ?_⟩
  rw [c3_detectA2]
  norm_num

theorem c3_update0b : capUpdateResponse [c3r0a, c3r1a, c3r2] c3cks c3r0a = c3r0b := by
  unfold capUpdateResponse
  rw [show resolveColdkey c3cks c3r0a = some "A" from by decide]
  simp only []
  rw [c3_filter_groupA2, if_pos c3_condA2, c3_detectA2, c3_attenuate0b]

theorem c3_update1b : capUpdateResponse [c3r0a, c3r1a, c3r2] c3cks c3r1a = c3r1b := by
  unfold capUpdateResponse
  rw [show resolveColdkey c3cks c3r1a = some "A" from by decide]
  simp only []
  rw [c3_filter_groupA2, if_pos c3_condA2, c3_detectA2, c3_attenuate1b]

theorem c3_update2b : capUpdateResponse [c3r0a, c3r1a, c3r2] c3cks c3r2 = c3r2 := by
  unfold capUpdateResponse
  rw [show resolveColdkey c3cks c3r2 = some "B" from by decide]
  simp only []
  rw [c3_filter_groupB2, if_neg (by
    intro hcond
    exact absurd hcond.1 (by norm_num))]

theorem c3_attGroupA2 : attenuateGroup [c3r0a, c3r1a] = [c3r0b, c3r1b] := by
  unfold attenuateGroup
  rw [if_pos c3_condA2, c3_detectA2]
  show [attenuate 0.6784 c3r0a, attenuate 0.6784 c3r1a] = _
  rw [c3_attenuate0b, c3_attenuate1b]

theorem c3_cap_eval2 : applyColdkeyConsensusCap [c3r0a, c3r1a, c3r2] c3mg =
    .ok ([c3r0b, c3r1b, c3r2], [c3r0b, c3r1b, c3r2]) := by
  rw [applyColdkeyConsensusCap_some [c3r0a, c3r1a, c3r2] c3mg c3cks (by simp) rfl]
  refine congrArg Except.ok (Prod.ext ?_ ?_)
  · show [capUpdateResponse [c3r0a, c3r1a, c3r2] c3cks c3r0a,
      capUpdateResponse [c3r0a, c3r1a, c3r2] c3cks c3r1a,
      capUpdateResponse [c3r0a, c3r1a, c3r2] c3cks c3r2] = [c3r0b, c3r1b, c3r2]
    rw [c3_update0b, c3_update1b, c3_update2b]
  · have hbp : [c3r0a, c3r1a, c3r2].filter
        (fun r => resolveColdkey c3cks r = none) = [] := by
      simp only [List.filter_cons, List.filter_nil]
      rw [if_neg (by decide), if_neg (by decide), if_neg (by decide)]
    show [c3r0a, c3r1a, c3r2].filter (fun r => resolveColdkey c3cks r = none) ++
      (groupByFA (resolveColdkey c3cks) [c3r0a, c3r1a, c3r2]).flatMap
        (fun p => capAdmit (capValue c3cks) (attenuateGroup p.2)) =
      [c3r0b, c3r1b, c3r2]
    rw [hbp, List.nil_append, c3_groups2, List.flatMap_cons, List.flatMap_cons,
      List.flatMap_nil, List.append_nil]
    show capAdmit (capValue c3cks) (attenuateGroup [c3r0a, c3r1a]) ++
      capAdmit (capValue c3cks) (attenuateGroup [c3r2]) = [c3r0b, c3r1b, c3r2]
    rw [c3_attGroupA2, c3_attGroupB, c3_capValue]
    have h1 : capAdmit 2 [c3r0b, c3r1b] = [c3r0b, c3r1b] := by
      unfold capAdmit
      rw [if_pos (by norm_num)]
    have h2 : capAdmit 2 [c3r2] = [c3r2] := by
      unfold capAdmit
      rw [if_pos (by norm_num)]
    rw [h1, h2]
    rfl

theorem c3_cross_eval2 : detectCrossColdkeySimilarity [c3r0b, c3r1b, c3r2] c3mg 0 =
    .ok ([c3r0b, c3r1b, c3r2], 0) := by
  rw [detectCrossColdkeySimilarity_some [c3r0b, c3r1b, c3r2] c3mg c3cks 0 rfl
    (by decide)]
  have hg : groupByFA (crossKey c3cks) [c3r0b, c3r1b, c3r2] =
      [("A", [c3r0b, c3r1b]), ("B", [c3r2])] := by
    rw [groupByFA_eq]
    have h1 : [c3r0b, c3r1b, c3r2].filterMap (crossKey c3cks) =
        ["A", "A", "B"] := by decide
    rw [h1]
    have h2 : dedupFA ["A", "A", "B"] = ["A", "B"] := by decide
    rw [h2, List.map_cons, List.map_cons, List.map_nil]
    have h3 : [c3r0b, c3r1b, c3r2].filter
        (fun x => crossKey c3cks x = some "A") = [c3r0b, c3r1b] := by
      simp only [List.filter_cons, List.filter_nil]
      rw [if_pos (by decide), if_pos (by decide), if_neg (by decide)]
    have h4 : [c3r0b, c3r1b, c3r2].filter
        (fun x => crossKey c3cks x = some "B") = [c3r2] := by
      simp only [List.filter_cons, List.filter_nil]
      rw [if_neg (by decide), if_neg (by decide), if_pos (by decide)]
    rw [h3, h4]
  rw [hg, List.foldl_cons, List.foldl_cons, List.foldl_nil]
  rw [if_neg (by norm_num)]
  rw [if_neg (by norm_num)]
  rfl

theorem c3_votes2 :
    calculateWeightedConsensus [c3r0b, c3r1b, c3r2] = some Resolution.FALSE := by
  have h1 : voteWeights [c3r0b, c3r1b, c3r2] =
      [(Resolution.TRUE, (0.5 : ℝ)), (Resolution.FALSE, 0.6)] := by
    unfold voteWeights
    rw [List.foldl_cons, List.foldl_cons, List.foldl_cons, List.foldl_nil]
    have ha : addVote [] c3r0b.resolution (c3r0b.confidence / 100) =
        [(Resolution.TRUE, (0.25 : ℝ))] := by
      unfold addVote
      rw [if_neg (by simp)]
      show [] ++ [(c3r0b.resolution, c3r0b.confidence / 100)] = _
      unfold c3r0b
      norm_num
    rw [ha]
    have hb : addVote [(Resolution.TRUE, (0.25 : ℝ))] c3r1b.resolution
        (c3r1b.confidence / 100) = [(Resolution.TRUE, (0.5 : ℝ))] := by
      unfold addVote
      rw [if_pos (by
        show c3r1b.resolution ∈ [(Resolution.TRUE, (0.25 : ℝ))].map Prod.fst
        unfold c3r1b
        simp)]
      show [if (Resolution.TRUE, (0.25 : ℝ)).1 = c3r1b.resolution then
        ((Resolution.TRUE, (0.25 : ℝ)).1,
          (Resolution.TRUE, (0.25 : ℝ)).2 + c3r1b.confidence / 100)
        else (Resolution.TRUE, (0.25 : ℝ))] = _
      rw [if_pos (by decide)]
      unfold c3r1b
      norm_num
    rw [hb]
    unfold addVote
    rw [if_neg (by
      show ¬ c3r2.resolution ∈ [(Resolution.TRUE, (0.5 : ℝ))].map Prod.fst
      unfold c3r2
      simp)]
    show [(Resolution.TRUE, (0.5 : ℝ))] ++
      [(c3r2.resolution, c3r2.confidence / 100)] = _
    unfold c3r2
    norm_num
  unfold calculateWeightedConsensus
  rw [h1]
  unfold pythonMaxBySnd
  rw [List.foldl_cons, List.foldl_cons, List.foldl_nil]
  show Option.map Prod.fst
    (if ((Resolution.TRUE, (0.5 : ℝ))).2 < ((Resolution.FALSE, (0.6 : ℝ))).2
     then some (Resolution.FALSE, (0.6 : ℝ))
     else some (Resolution.TRUE, 0.5)) = some Resolution.FALSE
  rw [if_pos (by norm_num)]
  rfl

theorem c3_inner2 : calculateConsensusAux [c3r0a, c3r1a, c3r2] (some c3mg) 0 =
    ⟨[c3r0b, c3r1b, c3r2], [c3r0b, c3r1b, c3r2], some Resolution.FALSE, 0⟩ := by
  rw [calculateConsensusAux_cap_cross [c3r0a, c3r1a, c3r2] c3mg 0
    [c3r0b, c3r1b, c3r2] [c3r0b, c3r1b, c3r2] [c3r0b, c3r1b, c3r2] 0 (by simp)
    c3_cap_eval2 c3_cross_eval2, c3_votes2]

/-! Scoring of the twice-attenuated C3 responses: against the recomputed consensus
FALSE (what the code does) and against the returned consensus TRUE (what the claim
asserts). -/

theorem c3_cons_score (r : MinerResponse) :
    calculateConsistencyScore r [c3r0b, c3r1b, c3r2] = 1 := by
  refine consistencyScore_no_high r [c3r0b, c3r1b, c3r2] (by norm_num) ?_
  intro x hx
  rcases List.mem_cons.mp hx with rfl | hx2
  · show (25 : ℝ) ≤ 80
    norm_num
  rcases List.mem_cons.mp hx2 with rfl | hx3
  · show (25 : ℝ) ≤ 80
    norm_num
  rcases List.mem_cons.mp hx3 with rfl | hx4
  · show (60 : ℝ) ≤ 80
    norm_num
  · exact absurd hx4 (List.not_mem_nil x)

theorem c3_score0F : scoreResponse defaultConfig c3r0b (some Resolution.FALSE)
    [c3r0b, c3r1b, c3r2] = 0.45 := by
  have hacc : calculateAccuracyScore c3r0b (some Resolution.FALSE) = 0 := by
    unfold calculateAccuracyScore
    show (if c3r0b.resolution = Resolution.FALSE then (1 : ℝ)
      else if c3r0b.resolution = Resolution.PENDING then 0.5 else 0) = 0
    rw [if_neg (by decide), if_neg (by decide)]
  have hconf : calculateConfidenceScore c3r0b (some Resolution.FALSE) = 0.75 := by
    unfold calculateConfidenceScore
    show (if some c3r0b.resolution = some Resolution.FALSE then
        c3r0b.confidence / 100
      else if c3r0b.resolution = Resolution.PENDING then
        1 - |c3r0b.confidence / 100 - 0.5|
      else 1 - c3r0b.confidence / 100) = 0.75
    rw [if_neg (by decide), if_neg (by decide)]
    show (1 : ℝ) - 25 / 100 = 0.75
    norm_num
  unfold scoreResponse
  rw [defaultConfig_eval, hacc, hconf, c3_cons_score c3r0b,
    sourceScore_of_no_sources c3r0b rfl]
  show min (max ((0 : ℝ) * 0.4 + 0.75 * 0.2 + 1 * 0.3 + 0 * 0.1) 0) 1 = 0.45
  rw [show (0 : ℝ) * 0.4 + 0.75 * 0.2 + 1 * 0.3 + 0 * 0.1 = 0.45 by norm_num,
    max_eq_left (by norm_num), min_eq_left (by norm_num)]

theorem c3_score1F : scoreResponse defaultConfig c3r1b (some Resolution.FALSE)
    [c3r0b, c3r1b, c3r2] = 0.45 := by
  have hacc : calculateAccuracyScore c3r1b (some Resolution.FALSE) = 0 := by
    unfold calculateAccuracyScore
    show (if c3r1b.resolution = Resolution.FALSE then (1 : ℝ)
      else if c3r1b.resolution = Resolution.PENDING then 0.5 else 0) = 0
    rw [if_neg (by decide), if_neg (by decide)]
  have hconf : calculateConfidenceScore c3r1b (some Resolution.FALSE) = 0.75 := by
    unfold calculateConfidenceScore
    show (if some c3r1b.resolution = some Resolution.FALSE then
        c3r1b.confidence / 100
      else if c3r1b.resolution = Resolution.PENDING then
        1 - |c3r1b.confidence / 100 - 0.5|
      else 1 - c3r1b.confidence / 100) = 0.75
    rw [if_neg (by decide), if_neg (by decide)]
    show (1 : ℝ) - 25 / 100 = 0.75
    norm_num
  unfold scoreResponse
  rw [defaultConfig_eval, hacc, hconf, c3_cons_score c3r1b,
    sourceScore_of_no_sources c3r1b rfl]
  show min (max ((0 : ℝ) * 0.4 + 0.75 * 0.2 + 1 * 0.3 + 0 * 0.1) 0) 1 = 0.45
  rw [show (0 : ℝ) * 0.4 + 0.75 * 0.2 + 1 * 0.3 + 0 * 0.1 = 0.45 by norm_num,
    max_eq_left (by norm_num), min_eq_left (by norm_num)]

theorem c3_score2F : scoreResponse defaultConfig c3r2 (some Resolution.FALSE)
    [c3r0b, c3r1b, c3r2] = 0.82 := by
  have hacc : calculateAccuracyScore c3r2 (some Resolution.FALSE) = 1 := by
    unfold calculateAccuracyScore
    show (if c3r2.resolution = Resolution.FALSE then (1 : ℝ)
      else if c3r2.resolution = Resolution.PENDING then 0.5 else 0) = 1
    rw [if_pos (by decide)]
  have hconf : calculateConfidenceScore c3r2 (some Resolution.FALSE) = 0.6 := by
    unfold calculateConfidenceScore
    show (if some c3r2.resolution = some Resolution.FALSE then
        c3r2.confidence / 100
      else if c3r2.resolution = Resolution.PENDING then
        1 - |c3r2.confidence / 100 - 0.5|
      else 1 - c3r2.confidence / 100) = 0.6
    rw [if_pos (by decide)]
    show (60 : ℝ) / 100 = 0.6
    norm_num
  unfold scoreResponse
  rw [defaultConfig_eval, hacc, hconf, c3_cons_score c3r2,
    sourceScore_of_no_sources c3r2 rfl]
  show min (max ((1 : ℝ) * 0.4 + 0.6 * 0.2 + 1 * 0.3 + 0 * 0.1) 0) 1 = 0.82
  rw [show (1 : ℝ) * 0.4 + 0.6 * 0.2 + 1 * 0.3 + 0 * 0.1 = 0.82 by norm_num,
    max_eq_left (by norm_num), min_eq_left (by norm_num)]

theorem c3_score0T : scoreResponse defaultConfig c3r0b (some Resolution.TRUE)
    [c3r0b, c3r1b, c3r2] = 0.75 := by
  have hacc : calculateAccuracyScore c3r0b (some Resolution.TRUE) = 1 := by
    unfold calculateAccuracyScore
    show (if c3r0b.resolution = Resolution.TRUE then (1 : ℝ)
      else if c3r0b.resolution = Resolution.PENDING then 0.5 else 0) = 1
    rw [if_pos (by decide)]
  have hconf : calculateConfidenceScore c3r0b (some Resolution.TRUE) = 0.25 := by
    unfold calculateConfidenceScore
    show (if some c3r0b.resolution = some Resolution.TRUE then
        c3r0b.confidence / 100
      else if c3r0b.resolution = Resolution.PENDING then
        1 - |c3r0b.confidence / 100 - 0.5|
      else 1 - c3r0b.confidence / 100) = 0.25
    rw [if_pos (by decide)]
    show (25 : ℝ) / 100 = 0.25
    norm_num
  unfold scoreResponse
  rw [defaultConfig_eval, hacc, hconf, c3_cons_score c3r0b,
    sourceScore_of_no_sources c3r0b rfl]
  show min (max ((1 : ℝ) * 0.4 + 0.25 * 0.2 + 1 * 0.3 + 0 * 0.1) 0) 1 = 0.75
  rw [show (1 : ℝ) * 0.4 + 0.25 * 0.2 + 1 * 0.3 + 0 * 0.1 = 0.75 by norm_num,
    max_eq_left (by norm_num), min_eq_left (by norm_num)]

theorem c3_score1T : scoreResponse defaultConfig c3r1b (some Resolution.TRUE)
    [c3r0b, c3r1b, c3r2] = 0.75 := by
  have hacc : calculateAccuracyScore c3r1b (some Resolution.TRUE) = 1 := by
    unfold calculateAccuracyScore
    show (if c3r1b.resolution = Resolution.TRUE then (1 : ℝ)
      else if c3r1b.resolution = Resolution.PENDING then 0.5 else 0) = 1
    rw [if_pos (by decide)]
  have hconf : calculateConfidenceScore c3r1b (some Resolution.TRUE) = 0.25 := by
    unfold calculateConfidenceScore
    show (if some c3r1b.resolution = some Resolution.TRUE then
        c3r1b.confidence / 100
      else if c3r1b.resolution = Resolution.PENDING then
        1 - |c3r1b.confidence / 100 - 0.5|
      else 1 - c3r1b.confidence / 100) = 0.25
    rw [if_pos (by decide)]
    show (25 : ℝ) / 100 = 0.25
    norm_num
  unfold scoreResponse
  rw [defaultConfig_eval, hacc, hconf, c3_cons_score c3r1b,
    sourceScore_of_no_sources c3r1b rfl]
  show min (max ((1 : ℝ) * 0.4 + 0.25 * 0.2 + 1 * 0.3 + 0 * 0.1) 0) 1 = 0.75
  rw [show (1 : ℝ) * 0.4 + 0.25 * 0.2 + 1 * 0.3 + 0 * 0.1 = 0.75 by norm_num,
    max_eq_left (by norm_num), min_eq_left (by norm_num)]

theorem c3_score2T : scoreResponse defaultConfig c3r2 (some Resolution.TRUE)
    [c3r0b, c3r1b, c3r2] = 0.38 := by
  have hacc : calculateAccuracyScore c3r2 (some Resolution.TRUE) = 0 := by
    unfold calculateAccuracyScore
    show (if c3r2.resolution = Resolution.TRUE then (1 : ℝ)
      else if c3r2.resolution = Resolution.PENDING then 0.5 else 0) = 0
    rw [if_neg (by decide), if_neg (by decide)]
  have hconf : calculateConfidenceScore c3r2 (some Resolution.TRUE) = 0.4 := by
    unfold calculateConfidenceScore
    show (if some c3r2.resolution = some Resolution.TRUE then
        c3r2.confidence / 100
      else if c3r2.resolution = Resolution.PENDING then
        1 - |c3r2.confidence / 100 - 0.5|
      else 1 - c3r2.confidence / 100) = 0.4
    rw [if_neg (by decide), if_neg (by decide)]
    show (1 : ℝ) - 60 / 100 = 0.4
    norm_num
  unfold scoreResponse
  rw [defaultConfig_eval, hacc, hconf, c3_cons_score c3r2,
    sourceScore_of_no_sources c3r2 rfl]
  show min (max ((0 : ℝ) * 0.4 + 0.4 * 0.2 + 1 * 0.3 + 0 * 0.1) 0) 1 = 0.38
  rw [show (0 : ℝ) * 0.4 + 0.4 * 0.2 + 1 * 0.3 + 0 * 0.1 = 0.38 by norm_num,
    max_eq_left (by norm_num), min_eq_left (by norm_num)]

theorem c3_raw_fold : ([c3r0b, c3r1b, c3r2]).foldl (fun m r =>
    match r.miner_uid with
    | some uid => dictInsert m uid (scoreResponse defaultConfig r
        (some Resolution.FALSE) [c3r0b, c3r1b, c3r2])
    | none => m) [] = [(0, (0.45 : ℝ)), (1, 0.45), (2, 0.82)] := by
  show dictInsert (dictInsert (dictInsert [] 0 (scoreResponse defaultConfig c3r0b
      (some Resolution.FALSE) [c3r0b, c3r1b, c3r2])) 1 (scoreResponse defaultConfig
      c3r1b (some Resolution.FALSE) [c3r0b, c3r1b, c3r2])) 2 (scoreResponse
      defaultConfig c3r2 (some Resolution.FALSE) [c3r0b, c3r1b, c3r2]) =
    [(0, (0.45 : ℝ)), (1, 0.45), (2, 0.82)]
  rw [c3_score0F, c3_score1F, c3_score2F]
  have h0 : dictInsert [] 0 (0.45 : ℝ) = [(0, 0.45)] := by
    unfold dictInsert
    rw [if_neg (by simp)]
    rfl
  have h1 : dictInsert [(0, (0.45 : ℝ))] 1 0.45 = [(0, 0.45), (1, 0.45)] := by
    unfold dictInsert
    rw [if_neg (by simp)]
    rfl
  have h2 : dictInsert [(0, (0.45 : ℝ)), (1, 0.45)] 2 0.82 =
      [(0, 0.45), (1, 0.45), (2, 0.82)] := by
    unfold dictInsert
    rw [if_neg (by simp)]
    rfl
  rw [h0, h1, h2]

theorem c3_norm_code : normalizeScores [(0, (0.45 : ℝ)), (1, 0.45), (2, 0.82)] =
    [(0, (0.45 : ℝ) / 1.72), (1, 0.45 / 1.72), (2, 0.82 / 1.72)] := by
  have htot : (([(0, (0.45 : ℝ)), (1, 0.45), (2, 0.82)]).map
      (fun p => p.2)).sum = 1.72 := by
    simp only [List.map_cons, List.map_nil, List.sum_cons, List.sum_nil]
    norm_num
  simp only [normalizeScores]
  rw [if_neg (by simp), htot, if_neg (by norm_num)]
  rfl

theorem c3_claim_fold : ([c3r0b, c3r1b, c3r2]).foldl (fun m r =>
    match r.miner_uid with
    | some uid => dictInsert m uid (scoreResponse defaultConfig r
        (some Resolution.TRUE) [c3r0b, c3r1b, c3r2])
    | none => m) [] = [(0, (0.75 : ℝ)), (1, 0.75), (2, 0.38)] := by
  show dictInsert (dictInsert (dictInsert [] 0 (scoreResponse defaultConfig c3r0b
      (some Resolution.TRUE) [c3r0b, c3r1b, c3r2])) 1 (scoreResponse defaultConfig
      c3r1b (some Resolution.TRUE) [c3r0b, c3r1b, c3r2])) 2 (scoreResponse
      defaultConfig c3r2 (some Resolution.TRUE) [c3r0b, c3r1b, c3r2]) =
    [(0, (0.75 : ℝ)), (1, 0.75), (2, 0.38)]
  rw [c3_score0T, c3_score1T, c3_score2T]
  have h0 : dictInsert [] 0 (0.75 : ℝ) = [(0, 0.75)] := by
    unfold dictInsert
    rw [if_neg (by simp)]
    rfl
  have h1 : dictInsert [(0, (0.75 : ℝ))] 1 0.75 = [(0, 0.75), (1, 0.75)] := by
    unfold dictInsert
    rw [if_neg (by simp)]
    rfl
  have h2 : dictInsert [(0, (0.75 : ℝ)), (1, 0.75)] 2 0.38 =
      [(0, 0.75), (1, 0.75), (2, 0.38)] := by
    unfold dictInsert
    rw [if_neg (by simp)]
    rfl
  rw [h0, h1, h2]

theorem c3_norm_claim : normalizeScores [(0, (0.75 : ℝ)), (1, 0.75), (2, 0.38)] =
    [(0, (0.75 : ℝ) / 1.88), (1, 0.75 / 1.88), (2, 0.38 / 1.88)] := by
  have htot : (([(0, (0.75 : ℝ)), (1, 0.75), (2, 0.38)]).map
      (fun p => p.2)).sum = 1.88 := by
    simp only [List.map_cons, List.map_nil, List.sum_cons, List.sum_nil]
    norm_num
  simp only [normalizeScores]
  rw [if_neg (by simp), htot, if_neg (by norm_num)]
  rfl

theorem c3_valid_filter : c3rs.filter (fun r => r.is_valid) = c3rs := by
  rw [List.filter_eq_self]
  intro a ha
  refine decide_eq_true ?_
  rcases List.mem_cons.mp ha with rfl | ha2
  · exact ⟨rfl, by norm_num [c3r0], by norm_num [c3r0]⟩
  rcases List.mem_cons.mp ha2 with rfl | ha3
  · exact ⟨rfl, by norm_num [c3r1], by norm_num [c3r1]⟩
  rcases List.mem_cons.mp ha3 with rfl | ha4
  · exact ⟨rfl, by norm_num [c3r2], by norm_num [c3r2]⟩
  · exact absurd ha4 (List.not_mem_nil a)

theorem c3_scores_eval : (calculateConsensus defaultConfig ⟨"s"⟩ c3rs (some c3mg) 0
    []).result.miner_scores =
    [(0, (0.45 : ℝ) / 1.72), (1, 0.45 / 1.72), (2, 0.82 / 1.72)] := by
  rw [calculateConsensus_scores_eq defaultConfig ⟨"s"⟩ c3rs (some c3mg) 0 []
    (by simp [c3rs])]
  rw [c3_valid_filter, c3_inner1]
  show (calculateScores defaultConfig ⟨"s"⟩ [c3r0a, c3r1a, c3r2] none (some c3mg)
    0).scores = _
  rw [calculateScores_scores defaultConfig ⟨"s"⟩ [c3r0a, c3r1a, c3r2] (some c3mg) 0
    (by simp)]
  rw [c3_inner2]
  show normalizeScores (([c3r0b, c3r1b, c3r2]).foldl (fun m r =>
    match r.miner_uid with
    | some uid => dictInsert m uid (scoreResponse defaultConfig r
        (some Resolution.FALSE) [c3r0b, c3r1b, c3r2])
    | none => m) []) = _
  rw [c3_raw_fold, c3_norm_code]

theorem c3_responses_eval : (calculateConsensus defaultConfig ⟨"s"⟩ c3rs (some c3mg)
    0 []).responses = [c3r0b, c3r1b, c3r2] := by
  have h0v : c3r0.is_valid := ⟨rfl, by norm_num [c3r0], by norm_num [c3r0]⟩
  have h1v : c3r1.is_valid := ⟨rfl, by norm_num [c3r1], by norm_num [c3r1]⟩
  have h2v : c3r2.is_valid := ⟨rfl, by norm_num [c3r2], by norm_num [c3r2]⟩
  rw [calculateConsensus_responses_eq defaultConfig ⟨"s"⟩ c3rs (some c3mg) 0 []
    (by simp [c3rs])]
  rw [c3_valid_filter, c3_inner1]
  show mergeValid c3rs (calculateScores defaultConfig ⟨"s"⟩ [c3r0a, c3r1a, c3r2]
    none (some c3mg) 0).updated = _
  rw [calculateScores_updated, if_neg (by simp), c3_inner2]
  show mergeValid (c3r0 :: c3r1 :: c3r2 :: []) (c3r0b :: c3r1b :: c3r2 :: []) = _
  rw [mergeValid_cons_valid c3r0 _ c3r0b _ h0v,
    mergeValid_cons_valid c3r1 _ c3r1b _ h1v,
    mergeValid_cons_valid c3r2 _ c3r2 _ h2v]
  rfl

theorem c3_resolution_eval : (calculateConsensus defaultConfig ⟨"s"⟩ c3rs (some c3mg)
    0 []).result.consensus_resolution = Resolution.TRUE := by
  rw [calculateConsensus_resolution_eq defaultConfig ⟨"s"⟩ c3rs (some c3mg) 0 []
    (by simp [c3rs])]
  rw [c3_valid_filter, c3_inner1]
  rfl

/-- C3 counterexample: on the concrete C3 input, `calculate_consensus` returns the
consensus verdict TRUE (chosen by the first, consensus pass), but the scoring pass
re-runs `_calculate_consensus` on the already-attenuated responses, attenuating the
TRUE group a second time and flipping the internal verdict to FALSE; the returned
score map is therefore computed against FALSE, not against the returned
consensus_resolution: miner 2's returned score is 0.82/1.72, while the §4.7 score
of the returned responses against the returned verdict TRUE would give 0.38/1.88. -/
theorem C3_score_consensus_counterexample :
    (calculateConsensus defaultConfig ⟨"s"⟩ c3rs (some c3mg) 0
      []).result.consensus_resolution = Resolution.TRUE ∧
    List.lookup 2 (calculateConsensus defaultConfig ⟨"s"⟩ c3rs (some c3mg) 0
      []).result.miner_scores = some ((0.82 : ℝ) / 1.72) ∧
    List.lookup 2 (scoreMapAgainst defaultConfig
      (some ((calculateConsensus defaultConfig ⟨"s"⟩ c3rs (some c3mg) 0
        []).result.consensus_resolution))
      (calculateConsensus defaultConfig ⟨"s"⟩ c3rs (some c3mg) 0 []).responses) =
      some ((0.38 : ℝ) / 1.88) ∧
    ¬ ((0.82 : ℝ) / 1.72 = (0.38 : ℝ) / 1.88) := by
  refine ⟨c3_resolution_eval, ?_, ?_, by norm_num⟩
  · rw [c3_scores_eval]
    rfl
  · rw [c3_resolution_eval, c3_responses_eval]
    unfold scoreMapAgainst
    rw [c3_claim_fold, c3_norm_claim]
    rfl

/-- C3 amended: for a non-empty input whose valid sublist survives the first
consensus pass, the returned miner score map is the normalized §4.7 score map of
the responses as further mutated by the scoring pass, computed against the verdict
of a SECOND `_calculate_consensus` run on the first pass's already-attenuated
output — not against the returned consensus_resolution, which comes from the first
run.  The two verdicts (and hence the maps) can differ because the coldkey
attenuation is applied again in the second run. -/
theorem C3_score_consensus_amended (cfg : WeightsConfig) (st : Statement)
    (rs : List MinerResponse) (mg : Option Metagraph) (rng : Rng)
    (acc : List (Nat × List ℝ)) (hrs : ¬ rs = [])
    (hup : ¬ (calculateConsensusAux (rs.filter (fun r => r.is_valid)) mg
      rng).updated = []) :
    (calculateConsensus cfg st rs mg rng acc).result.miner_scores =
      scoreMapAgainst cfg
        (calculateConsensusAux
          (calculateConsensusAux (rs.filter (fun r => r.is_valid)) mg rng).updated
          mg
          (calculateConsensusAux (rs.filter (fun r => r.is_valid)) mg
            rng).rng).consensus
        (calculateConsensusAux
          (calculateConsensusAux (rs.filter (fun r => r.is_valid)) mg rng).updated
          mg
          (calculateConsensusAux (rs.filter (fun r => r.is_valid)) mg
            rng).rng).updated := by
  rw [calculateConsensus_scores_eq cfg st rs mg rng acc hrs]
  rw [calculateScores_scores cfg st _ mg _ hup]
  unfold scoreMapAgainst
  rfl

/-- Witness for the amended C3 at the concrete counterexample input. -/
theorem C3_score_consensus_amended_witness :
    (¬ (c3rs : List MinerResponse) = [] ∧
      ¬ (calculateConsensusAux (c3rs.filter (fun r => r.is_valid)) (some c3mg)
        0).updated = []) ∧
    (calculateConsensus defaultConfig ⟨"s"⟩ c3rs (some c3mg) 0
      []).result.miner_scores =
      scoreMapAgainst defaultConfig
        (calculateConsensusAux
          (calculateConsensusAux (c3rs.filter (fun r => r.is_valid)) (some c3mg)
            0).updated (some c3mg)
          (calculateConsensusAux (c3rs.filter (fun r => r.is_valid)) (some c3mg)
            0).rng).consensus
        (calculateConsensusAux
          (calculateConsensusAux (c3rs.filter (fun r => r.is_valid)) (some c3mg)
            0).updated (some c3mg)
          (calculateConsensusAux (c3rs.filter (fun r => r.is_valid)) (some c3mg)
            0).rng).updated :=
  ⟨⟨by simp [c3rs], by rw [c3_valid_filter, c3_inner1]; simp⟩,
    C3_score_consensus_amended defaultConfig ⟨"s"⟩ c3rs (some c3mg) 0 []
      (by simp [c3rs]) (by rw [c3_valid_filter, c3_inner1]; simp)⟩

end

end Weights
